import Mathlib

/- Shallow embedding of the tabulator repository (codebook.py, tabulator.py,
   basic_analysis.py).  Dataset cells are rational numbers, with `none` as the
   missing-value marker; formatted output cells are Lean strings.  Python
   floating point is modelled by exact rational arithmetic together with
   correctly rounded decimal formatting; operations that raise in Python
   (division by zero, pandas length-mismatch errors, out-of-bounds writes)
   return `none` here. -/

namespace Tabulator

/-- Keys of a codebook entry: Python dict keys are either strings (such as the
reserved key of `Codebook.append`) or numeric codes. -/
inductive VKey where
  | str (s : String)
  | num (q : ℚ)
deriving DecidableEq

/-- Variable type tags, as passed by callers: N (normally distributed numeric),
U (non-normal numeric), C (categorical). -/
inductive VType where
  | N
  | U
  | C
deriving DecidableEq

/-- The reserved key under which `Codebook.append` stores the variable label. -/
def labelKey : VKey := VKey.str "_label"

/-- Model of Python str() on the scalar values used by the repository:
integral rationals print like Python ints. -/
def valStr (q : ℚ) : String := if q.den = 1 then toString q.num else toString q

/-- Python str() of a dict key. -/
def keyStr : VKey → String
  | VKey.str s => s
  | VKey.num q => valStr q

/-- A codebook entry is the ordered key/value list of the Python dict
`self[variable]`; `Codebook.append` puts the variable-label pseudo-entry
first. -/
abbrev Entry := List (VKey × String)

/-- Python dict insertion: an existing key is updated in place, a new key is
appended at the end. -/
def entryInsert (e : Entry) (k : VKey) (v : String) : Entry :=
  if k ∈ e.map Prod.fst then e.map (fun p => if p.1 = k then (k, v) else p)
  else e ++ [(k, v)]

/-- The entry built by `Codebook.append` (codebook.py lines 9-27): the dict
starts as the variable-label pseudo-entry, then the code/label pairs are
inserted in the given order.  Pairs are passed as a list of pairs, so the
odd-arity ValueError branch of the source cannot arise in the model. -/
def mkEntry (variableLabel : String) (pairs : List (VKey × String)) : Entry :=
  pairs.foldl (fun e p => entryInsert e p.1 p.2) [(labelKey, variableLabel)]

/-- The codebook is a dict from variable name to entry; modelled as its ordered
key/value list. -/
abbrev Codebook := List (String × Entry)

def cbLookup (cb : Codebook) (vname : String) : Option Entry :=
  (cb.find? (fun p => p.1 = vname)).map Prod.snd

/-- `Codebook.append` at the codebook level: dict assignment of the freshly
built entry. -/
def cbAppend (cb : Codebook) (vname : String) (variableLabel : String)
    (pairs : List (VKey × String)) : Codebook :=
  if vname ∈ cb.map Prod.fst then
    cb.map (fun p => if p.1 = vname then (vname, mkEntry variableLabel pairs) else p)
  else cb ++ [(vname, mkEntry variableLabel pairs)]

/-- `Codebook.get_code_label` (codebook.py lines 29-44): per-code lookup with
fallback to str(code). -/
def get_code_label (cb : Codebook) (vname : String) (code : VKey) : String :=
  match cbLookup cb vname with
  | some e =>
    match e.find? (fun p => p.1 = code) with
    | some p => p.2
    | none => keyStr code
  | none => keyStr code

/-- `Codebook.get_variable_label` (codebook.py lines 46-59). -/
def get_variable_label (cb : Codebook) (vname : String) : String :=
  match cbLookup cb vname with
  | some e =>
    match e.find? (fun p => p.1 = labelKey) with
    | some p => p.2
    | none => vname
  | none => vname

/-- pandas `Series.unique` on a list of values: distinct values in order of
first appearance (fold with an accumulator of already seen values). -/
def pdUniqueAux (acc : List ℚ) : List ℚ → List ℚ
  | [] => acc
  | x :: xs => if x ∈ acc then pdUniqueAux acc xs else pdUniqueAux (acc ++ [x]) xs

def pdUnique (xs : List ℚ) : List ℚ := pdUniqueAux [] xs

/-- Equivalent head-first description of first-appearance deduplication: keep
the head, remove its later duplicates, recurse.  Used only in proofs. -/
def dedupKeepFirst : List ℚ → List ℚ
  | [] => []
  | x :: xs => x :: dedupKeepFirst (xs.filter (fun y => y ≠ x))
termination_by l => l.length
decreasing_by
  simp only [List.length_cons]
  exact Nat.lt_succ_of_le (List.length_filter_le _ _)

/-- The tabulator state: the dataset columns by name (missing = `none`), the
row count (`self.sample_size`), the codebook, and `decimal_places`. -/
structure Tab where
  data : String → List (Option ℚ)
  sampleSize : ℕ
  codebook : Codebook
  decimalPlaces : ℕ

/-- `Tabulator.split_codes_labels` (tabulator.py lines 19-37).  For a variable
in the codebook, codes are the dict keys with the first one popped (for
append-built entries that is the variable-label pseudo-entry) and labels are
all dict values; otherwise codes are the first 20 distinct non-missing
observed values and labels are the variable name followed by their string
forms. -/
def splitCodesLabels (t : Tab) (vname : String) : List VKey × List String :=
  match cbLookup t.codebook vname with
  | some e => ((e.map Prod.fst).drop 1, e.map Prod.snd)
  | none =>
    let codes := (pdUnique ((t.data vname).filterMap id)).take 20
    (codes.map VKey.num, vname :: codes.map valStr)

/-- `anova_or_t_from_variables` (basic_analysis.py lines 28-67).  Only the
category-count guard (lines 40-44) is relevant to the claims; past the guard
the source runs scipy Levene/t-test/ANOVA on floats, which the model records
as `Except.ok ()` (no InvalidArgument raised).  Python raises ValueError (the
InvalidArgument of the spec, quoting the variable name) when the categorical
column has fewer than two distinct observed categories. -/
def anova_or_t_from_variables (categoricalName : String)
    (_continuousCol categoricalCol : List (Option ℚ)) : Except String Unit :=
  if (pdUnique (categoricalCol.filterMap id)).length < 2 then
    Except.error ("The categorical variable " ++ categoricalName ++
      " must have at least two categories.")
  else Except.ok ()

/- ------------------------------------------------------------------ -/
/- Number formatting (Python f-string .Nf and .N% on floats), modelled -/
/- by exact rational arithmetic with correct decimal rounding.         -/
/- ------------------------------------------------------------------ -/

/-- Integer square root by Newton iteration with explicit fuel (the excess of
the guess over the root at least halves per step, so 64 steps converge for
every argument below 2 to the 64, far beyond the magnitudes the tables use;
fuel keeps the recursion structural so that concrete cells evaluate inside
the kernel). -/
def isqrtAux (n : ℕ) : ℕ → ℕ → ℕ
  | 0, g => g
  | fuel + 1, g =>
    let next := (g + n / g) / 2
    if next < g then isqrtAux n fuel next else g

def isqrt (n : ℕ) : ℕ := if n ≤ 1 then n else isqrtAux n 64 (n / 2)

/-- Round a rational to the nearest integer, ties to even (the rounding Python
applies when formatting). -/
def roundHalfEven (q : ℚ) : ℤ :=
  let n := ⌊q⌋
  let frac := q - n
  if frac < 1 / 2 then n
  else if 1 / 2 < frac then n + 1
  else if n % 2 = 0 then n else n + 1

/-- Zero-padded decimal fragment of exactly dp digits. -/
def decDigits (dp : ℕ) (n : ℕ) : String :=
  let s := toString n
  String.mk (List.replicate (dp - s.length) '0') ++ s

/-- Fixed-point rendering of a scaled nonnegative integer (value times
10 ^ dp). -/
def natFixed (dp : ℕ) (n : ℕ) : String :=
  if dp = 0 then toString n
  else toString (n / 10 ^ dp) ++ "." ++ decDigits dp (n % 10 ^ dp)

/-- Python format(q, ".dpf") on an exact rational value. -/
def fmtF (dp : ℕ) (q : ℚ) : String :=
  (if q < 0 then "-" else "") ++ natFixed dp (roundHalfEven (abs q * 10 ^ dp)).toNat

/-- pandas statistics return NaN on degenerate input and Python formats it as
the string nan. -/
def fmtOpt (dp : ℕ) : Option ℚ → String
  | none => "nan"
  | some q => fmtF dp q

/-- Round the square root of a nonnegative rational to the nearest integer
(the floor of the root comes from isqrt of the floor; the half-way test
squares both sides, so no floating point enters; exact halves round up, which
agrees with float formatting except on measure-zero ties that the data of
this repository cannot hit). -/
def roundSqrt (q : ℚ) : ℕ :=
  let s := isqrt ⌊q⌋.toNat
  if ((2 * s + 1 : ℕ) ^ 2 : ℚ) ≤ 4 * q then s + 1 else s

/-- Python format of the square root of a rational to dp decimal places; none
(NaN variance) renders as nan. -/
def sqrtFixed (dp : ℕ) : Option ℚ → String
  | none => "nan"
  | some v => natFixed dp (roundSqrt (v * ((10 : ℚ) ^ dp) ^ 2))

/-- Python format(q, ".dp%"): the value times 100, dp decimals, a percent
sign. -/
def pctStr (dp : ℕ) (q : ℚ) : String := fmtF dp (100 * q) ++ "%"

/-- Python division: raises ZeroDivisionError on a zero denominator. -/
def divQ? (a b : ℚ) : Option ℚ := if b = 0 then none else some (a / b)

/- ------------------------------------------------------------------ -/
/- Summary statistics (pandas mean/std/median/quantile, skipna).       -/
/- ------------------------------------------------------------------ -/

def nonMissing (xs : List (Option ℚ)) : List ℚ := xs.filterMap id

/-- pandas Series.mean (skips missing; NaN when no values remain). -/
def meanQ (xs : List (Option ℚ)) : Option ℚ :=
  let v := nonMissing xs
  if v.length = 0 then none else some (v.sum / (v.length : ℚ))

/-- pandas Series.std with the default ddof = 1 (sample variance; NaN for
fewer than two values). -/
def sampleVarQ (xs : List (Option ℚ)) : Option ℚ :=
  let v := nonMissing xs
  if v.length < 2 then none
  else
    let m := v.sum / (v.length : ℚ)
    some ((v.map (fun x => (x - m) ^ 2)).sum / ((v.length : ℚ) - 1))

/-- The mean (sd) display string of tabulator.py. -/
def meanSdCell (dp : ℕ) (xs : List (Option ℚ)) : String :=
  fmtOpt dp (meanQ xs) ++ " (" ++ sqrtFixed dp (sampleVarQ xs) ++ ")"

def insertSorted (x : ℚ) : List ℚ → List ℚ
  | [] => [x]
  | y :: ys => if x ≤ y then x :: y :: ys else y :: insertSorted x ys

def sortQ (xs : List ℚ) : List ℚ := xs.foldr insertSorted []

/-- pandas Series.quantile with the default linear interpolation on the sorted
non-missing values; NaN (none) when the column has no values. -/
def quantileQ (p : ℚ) (xs : List (Option ℚ)) : Option ℚ :=
  let v := sortQ (nonMissing xs)
  if v.length = 0 then none
  else
    let n := v.length
    let h : ℚ := p * ((n : ℚ) - 1)
    let i : ℕ := ⌊h⌋.toNat
    let lo := v.getD i 0
    let hi := v.getD (min (i + 1) (n - 1)) lo
    some (lo + (h - (i : ℚ)) * (hi - lo))

/-- The median (IQR) display string of tabulator.py (IQR = Q3 - Q1). -/
def medianIqrCell (dp : ℕ) (xs : List (Option ℚ)) : String :=
  let iqr : Option ℚ :=
    match quantileQ (1 / 4) xs, quantileQ (3 / 4) xs with
    | some a, some b => some (b - a)
    | _, _ => none
  fmtOpt dp (quantileQ (1 / 2) xs) ++ " (" ++ fmtOpt dp iqr ++ ")"

/-- The count (percent) display string; Python raises ZeroDivisionError when
the denominator is zero, so the cell is none there. -/
def countPercentCell (dp : ℕ) (n d : ℕ) : Option String :=
  (divQ? (n : ℚ) (d : ℚ)).map (fun q => toString n ++ " (" ++ pctStr dp q ++ ")")

/-- pandas eq-comparison of a cell with a dict code: missing never matches,
and a string code never matches a numeric cell (Python == across types is
False). -/
def vmatch : Option ℚ → VKey → Bool
  | some q, VKey.num c => decide (q = c)
  | _, _ => false

/-- Number of rows of a column equal to a code (`.eq(code).sum()`). -/
def countMatches (col : List (Option ℚ)) (k : VKey) : ℕ :=
  col.countP (fun o => vmatch o k)

/-- `self.data.loc[self.data[key] == code, value]`: the value column
restricted to the rows whose key column matches the code. -/
def selectWhere (keyCol : List (Option ℚ)) (k : VKey) (valCol : List (Option ℚ)) :
    List (Option ℚ) :=
  ((keyCol.zip valCol).filter (fun p => vmatch p.1 k)).map Prod.snd

/- ------------------------------------------------------------------ -/
/- Correlation statistics (scipy pearsonr / spearmanr).                -/
/- ------------------------------------------------------------------ -/

inductive CorrKind where
  | pearson
  | spearman
deriving DecidableEq

/-- The pair sequence scipy pearsonr receives: the raw zipped columns, missing
values included (tabulator.py passes the full columns with no nan handling,
so a missing value propagates into the coefficient). -/
def pearsonInputPairs (x y : List (Option ℚ)) : List (Option ℚ × Option ℚ) :=
  x.zip y

/-- The pair sequence scipy spearmanr with nan_policy omit effectively uses:
pairs with a missing value on either side are dropped. -/
def spearmanInputPairs (x y : List (Option ℚ)) : List (Option ℚ × Option ℚ) :=
  (x.zip y).filter (fun p => p.1.isSome && p.2.isSome)

/-- The correlation coefficient of complete pairs, already rounded to dp
decimals and scaled by 10 ^ dp (sign times the rounded magnitude; the
magnitude comes from the exact square of r, so no floating point enters).
none models scipy's NaN, produced by fewer than two pairs or a zero
variance. -/
def corrFromPairs (dp : ℕ) (ps : List (ℚ × ℚ)) : Option ℤ :=
  if ps.length < 2 then none
  else
    let n : ℚ := (ps.length : ℚ)
    let sx := (ps.map Prod.fst).sum
    let sy := (ps.map Prod.snd).sum
    let sxx := n * (ps.map (fun p => p.1 ^ 2)).sum - sx ^ 2
    let syy := n * (ps.map (fun p => p.2 ^ 2)).sum - sy ^ 2
    let sxy := n * (ps.map (fun p => p.1 * p.2)).sum - sx * sy
    if sxx = 0 ∨ syy = 0 then none
    else some ((if sxy < 0 then -1 else 1) *
      (roundSqrt (((10 : ℚ) ^ dp) ^ 2 * sxy ^ 2 / (sxx * syy)) : ℤ))

/-- scipy pearsonr on the raw columns: a missing value anywhere makes the
result NaN (none); otherwise the exact Pearson coefficient, rounded for
display. -/
def pearsonR (dp : ℕ) (x y : List (Option ℚ)) : Option ℤ :=
  let ps := pearsonInputPairs x y
  if ps.any (fun p => p.1.isNone || p.2.isNone) then none
  else corrFromPairs dp (ps.map (fun p => (p.1.getD 0, p.2.getD 0)))

/-- Average ranks (1-based, ties averaged), as scipy uses for Spearman. -/
def rankList (vs : List ℚ) : List ℚ :=
  vs.map (fun v =>
    ((vs.countP (fun w => w < v) : ℚ) + (vs.countP (fun w => w ≤ v) : ℚ) + 1) / 2)

/-- scipy spearmanr with nan_policy omit: drop incomplete pairs, rank both
sides, take the Pearson coefficient of the ranks. -/
def spearmanR (dp : ℕ) (x y : List (Option ℚ)) : Option ℤ :=
  let ps := spearmanInputPairs x y
  corrFromPairs dp
    ((rankList (ps.map (fun p => p.1.getD 0))).zip (rankList (ps.map (fun p => p.2.getD 0))))

/-- Display of a rounded, scaled coefficient; none renders as nan. -/
def corrStr (dp : ℕ) : Option ℤ → String
  | none => "nan"
  | some z => (if z < 0 then "-" else "") ++ natFixed dp z.natAbs

/-- The cell of the numeric-by-numeric case: scipy pearsonr validates its
input before computing - x and y must have the same length, at least two -
and raises ValueError otherwise, hence none; on valid input the coefficient
is formatted, a missing value making it nan. -/
def pearsonCell (dp : ℕ) (x y : List (Option ℚ)) : Option String :=
  if x.length = y.length ∧ 2 ≤ x.length then
    some ("Pearson r: " ++ corrStr dp (pearsonR dp x y))
  else none

/-- The association operation of the spec (section 4.2), abstracting the
numeric-by-numeric dispatch of calculate_variable_of_interest_columns
(tabulator.py lines 197-244): which correlation routine runs, and which pair
sequence it receives.  Categorical pairings produce stratified rows instead,
so no coefficient arises (none). -/
def association (covType voiType : VType) (voiCol covCol : List (Option ℚ)) :
    Option (CorrKind × List (Option ℚ × Option ℚ)) :=
  match covType, voiType with
  | VType.N, VType.N => some (CorrKind.pearson, pearsonInputPairs voiCol covCol)
  | VType.N, VType.U => some (CorrKind.spearman, spearmanInputPairs voiCol covCol)
  | VType.U, VType.N => some (CorrKind.spearman, spearmanInputPairs voiCol covCol)
  | VType.U, VType.U => some (CorrKind.spearman, spearmanInputPairs voiCol covCol)
  | _, _ => none

/- ------------------------------------------------------------------ -/
/- The total column (tabulator.py lines 76-126).                       -/
/- ------------------------------------------------------------------ -/

/-- The rows calculate_total_column appends for one covariate: the missing
cell (or a blank), then the type-dispatched summary rows. -/
def totalRowsFor (t : Tab) (missing : Bool) (cv : String × VType) :
    Option (List String) := do
  let missingCell ←
    if missing then
      (divQ? (((t.data cv.1).countP (fun o => o.isNone) : ℕ) : ℚ) (t.sampleSize : ℚ)).map
        (fun q => toString ((t.data cv.1).countP (fun o => o.isNone)) ++
          " missing (" ++ pctStr t.decimalPlaces q ++ ")")
    else some ""
  let statCells ←
    match cv.2 with
    | VType.N => some [meanSdCell t.decimalPlaces (t.data cv.1)]
    | VType.U => some [medianIqrCell t.decimalPlaces (t.data cv.1)]
    | VType.C =>
      ((splitCodesLabels t cv.1).1).mapM (fun code =>
        countPercentCell t.decimalPlaces (countMatches (t.data cv.1) code) t.sampleSize)
  pure (missingCell :: statCells)

/-- Tabulator.calculate_total_column: the Total header, the optional
all-participants row, then per covariate the missing cell and the summary
statistic rows over the whole dataset. -/
def calculate_total_column (t : Tab) (covs : List String) (ctypes : List VType)
    (missing totalRow : Bool) : Option (List String) := do
  let parts ← (covs.zip ctypes).mapM (totalRowsFor t missing)
  pure ((["Total"] ++ (if totalRow then [toString t.sampleSize ++ " (100%)"] else []))
    ++ parts.flatten)

/- ------------------------------------------------------------------ -/
/- Claim C8.                                                           -/
/- ------------------------------------------------------------------ -/

def ageTab : Tab :=
  { data := fun v =>
      if v = "age" then [some 18, some 25, some 18, some 25, some 18, some 18] else []
    sampleSize := 6
    codebook := []
    decimalPlaces := 2 }



/-- The per-category counts the total column formats for one categorical
covariate (`self.data[variable].eq(code).sum()` per code, tabulator.py lines
119-125). -/
def categoryCounts (t : Tab) (vname : String) : List ℕ :=
  (splitCodesLabels t vname).1.map (fun k => countMatches (t.data vname) k)

/-- Number of dataset rows with a non-missing value for a variable. -/
def nonMissingCount (t : Tab) (vname : String) : ℕ :=
  ((t.data vname).filterMap id).length

/-- The education scenario of the repository's own test data: the directory
registers codes 1, 2, 3 but the column also holds the values 4 and 5. -/
def eduTab : Tab :=
  { data := fun v =>
      if v = "education" then [some 1, some 2, some 3, some 1, some 4, some 5] else []
    sampleSize := 6
    codebook := cbAppend [] "education" "Education Level"
      [(VKey.num 1, "High School"), (VKey.num 2, "College"), (VKey.num 3, "Graduate")]
    decimalPlaces := 2 }

/-- An unregistered binary covariate with one missing value. -/
def sexTab : Tab :=
  { data := fun v => if v = "sex" then [some 1, some 0, none, some 1] else []
    sampleSize := 4
    codebook := []
    decimalPlaces := 2 }


/- ------------------------------------------------------------------ -/
/- The variable-of-interest column block (tabulator.py lines 128-325). -/
/- ------------------------------------------------------------------ -/

/-- A block of table cells, stored as its list of columns (each column a list
of display strings), mirroring a pandas DataFrame's data area; the header
names travel separately. -/
abbrev Grid := List (List String)

/-- Cell lookup with blanks outside the grid. -/
def cellD (g : Grid) (c i : ℕ) : String := (g.getD c []).getD i ""

/-- `result.iloc[row_index, col_index] = s`: pandas raises IndexError outside
the frame, hence none. -/
def setCell (g : Grid) (r c : ℕ) (s : String) : Option Grid :=
  match g[c]? with
  | none => none
  | some col => if r < col.length then some (g.set c (col.set r s)) else none

/-- Write one row of cells left to right from a starting column (col_index
advancing by one per cell); a none cell is a raising Python computation
(zero denominator). -/
def writeRowM (g : Grid) (r : ℕ) (c0 : ℕ) : List (Option String) → Option Grid
  | [] => some g
  | os :: rest => do
    let s ← os
    let g1 ← setCell g r c0 s
    writeRowM g1 r (c0 + 1) rest

/-- Write a block of rows downwards (row_index advancing by one per row, each
row starting at column 0), returning the grid and the final cursor. -/
def writeCells2D (g : Grid) (r : ℕ) :
    List (List (Option String)) → Option (Grid × ℕ)
  | [] => some (g, r)
  | row :: rows => do
    let g1 ← writeRowM g r 0 row
    writeCells2D g1 (r + 1) rows

/-- The stratified all-participants cells written at row 1 when a total row is
requested (tabulator.py lines 157-182): the whole-column summary for a
numeric variable of interest, or one count/percent cell per category
(advancing one column per code) for a categorical one. -/
def totalRowCells (t : Tab) (voi : String) (vt : VType) (voiCodes : List VKey) :
    List (Option String) :=
  match vt with
  | VType.N => [some (meanSdCell t.decimalPlaces (t.data voi))]
  | VType.U => [some (medianIqrCell t.decimalPlaces (t.data voi))]
  | VType.C => voiCodes.map (fun code =>
      countPercentCell t.decimalPlaces (countMatches (t.data voi) code) t.sampleSize)

/-- The cells one covariate contributes to a variable-of-interest block,
arranged as the rows the cursor writes (the 3 by 3 dispatch of tabulator.py
lines 192-314).  Row k of this list is written at cursor + 1 + k, cell j at
column j, matching the source's row_index / col_index bookkeeping: the
correlation rows and the numeric-covariate-by-categorical rows are a single
row, a categorical covariate contributes one row per covariate code (columns
= variable-of-interest codes when it too is categorical, else column 0
only). -/
def covStepRows (t : Tab) (voi : String) (vt : VType) (voiCodes : List VKey)
    (cv : String × VType) : List (List (Option String)) :=
  let covCodes := (splitCodesLabels t cv.1).1
  match cv.2, vt with
  | VType.N, VType.N =>
    [[pearsonCell t.decimalPlaces (t.data voi) (t.data cv.1)]]
  | VType.N, VType.U =>
    [[some ("Spearman r: " ++ corrStr t.decimalPlaces
      (spearmanR t.decimalPlaces (t.data voi) (t.data cv.1)))]]
  | VType.N, VType.C =>
    [voiCodes.map (fun code =>
      some (meanSdCell t.decimalPlaces (selectWhere (t.data voi) code (t.data cv.1))))]
  | VType.U, VType.N =>
    [[some ("spearman r: " ++ corrStr t.decimalPlaces
      (spearmanR t.decimalPlaces (t.data voi) (t.data cv.1)))]]
  | VType.U, VType.U =>
    [[some ("spearman r: " ++ corrStr t.decimalPlaces
      (spearmanR t.decimalPlaces (t.data voi) (t.data cv.1)))]]
  | VType.U, VType.C =>
    [voiCodes.map (fun code =>
      some (medianIqrCell t.decimalPlaces (selectWhere (t.data voi) code (t.data cv.1))))]
  | VType.C, VType.N =>
    covCodes.map (fun cc =>
      [some (meanSdCell t.decimalPlaces (selectWhere (t.data cv.1) cc (t.data voi)))])
  | VType.C, VType.U =>
    covCodes.map (fun cc =>
      [some (medianIqrCell t.decimalPlaces (selectWhere (t.data cv.1) cc (t.data voi)))])
  | VType.C, VType.C =>
    covCodes.map (fun cc =>
      voiCodes.map (fun code =>
        countPercentCell t.decimalPlaces
          (((t.data cv.1).zip (t.data voi)).countP
            (fun p => vmatch p.1 cc && vmatch p.2 code))
          (countMatches (t.data cv.1) cc)))

/-- One iteration of the covariate loop: leave the cursor row blank
(row_index += 1 before any write) and write the dispatched rows. -/
def covStep (t : Tab) (voi : String) (vt : VType) (voiCodes : List VKey)
    (gr : Grid × ℕ) (cv : String × VType) : Option (Grid × ℕ) :=
  writeCells2D gr.1 (gr.2 + 1) (covStepRows t voi vt voiCodes cv)

/-- Building a DataFrame by repeated `result[label] = None`: pandas treats
column names as dict keys, so assigning to an already-present name overwrites
that column in place instead of adding one, and the physical columns are the
first-appearance deduplication of the assigned name sequence. -/
def strDedupAux (acc : List String) : List String → List String
  | [] => acc
  | x :: xs => if x ∈ acc then strDedupAux acc xs else strDedupAux (acc ++ [x]) xs

/-- First-appearance deduplication of a name sequence. -/
def strDedup (xs : List String) : List String := strDedupAux [] xs

/-- The columns the block is created with (result[label] = None per label,
tabulator.py lines 153-159): one column named labels[0] for a numeric
variable of interest; for a categorical one, a column per category label
with duplicate names collapsed as pandas does.  labels is nonempty on every
entry append can build, so headD never falls back on the inputs Python
accepts. -/
def blockColNames (vt : VType) (labels : List String) : List String :=
  match vt with
  | VType.N => [labels.headD ""]
  | VType.U => [labels.headD ""]
  | VType.C => strDedup (labels.drop 1)

/-- After filling, `result.loc[0] = result.columns` writes the column names
into row 0, and the final columns assignment renames them (the label header
followed by blank placeholders when categorical); pandas raises ValueError
when the new name list length differs from the column count, which happens
for a categorical variable of interest with no categories, or with
duplicate category labels (the collapsed block is narrower than the new
name list). -/
def relabelBlock (vt : VType) (labels : List String) (g : Grid) :
    Option (List String × Grid) :=
  let g1 := ((blockColNames vt labels).zip g).map (fun p => p.2.set 0 p.1)
  let names1 : List String :=
    match vt with
    | VType.N => [""]
    | VType.U => [""]
    | VType.C => labels.headD "" :: List.replicate (labels.length - 2) ""
  if names1.length = g1.length then some (names1, g1) else none

/-- Tabulator.calculate_variable_of_interest_columns (tabulator.py lines
128-325): create one blank column per block label with table_length rows
(reindex with fill_value blank string), optionally write the stratified
total at row 1, then per covariate advance the cursor one blank row and
write the dispatched statistic rows, and finally relabel row 0 and the
column names.  A write out of range, a zero denominator, or a column-name
length mismatch raises in Python, hence none. -/
def calculate_variable_of_interest_columns (t : Tab) (covs : List String)
    (ctypes : List VType) (voi : String) (vt : VType) (tableLength : ℕ)
    (totalRow : Bool) : Option (List String × Grid) := do
  let labels := (splitCodesLabels t voi).2
  let voiCodes := (splitCodesLabels t voi).1
  let g0 : Grid := (blockColNames vt labels).map (fun _ => List.replicate tableLength "")
  let (g1, r1) ←
    if totalRow then writeCells2D g0 1 [totalRowCells t voi vt voiCodes]
    else some (g0, 1)
  let (g2, _) ← (covs.zip ctypes).foldlM (covStep t voi vt voiCodes) (g1, r1)
  relabelBlock vt labels g2

/-- The name-column rows for one covariate (tabulator.py lines 61-72):
numeric types contribute the label and a statistic-name row; a categorical
covariate contributes the suffixed label and one row per category label. -/
def nameRowsFor (t : Tab) (suffix : String) (cv : String × VType) : List String :=
  let labels := (splitCodesLabels t cv.1).2
  match cv.2 with
  | VType.N => [labels.headD "", "mean (sd)"]
  | VType.U => [labels.headD "", "median (IQR)"]
  | VType.C => (labels.headD "" ++ " " ++ suffix) :: labels.drop 1

/-- Tabulator.calculate_covariate_name_column (tabulator.py lines 39-74). -/
def calculate_covariate_name_column (t : Tab) (covs : List String)
    (ctypes : List VType) (totalRow : Bool) (suffix : String) : List String :=
  (covs.zip ctypes).foldl (fun acc cv => acc ++ nameRowsFor t suffix cv)
    (["Characteristics"] ++ if totalRow then ["All participants"] else [])

/-- Rows a covariate block occupies inside a variable-of-interest column
block: the blank cursor row plus the written statistic rows. -/
def covRowCount (t : Tab) (voi : String) (vt : VType) (voiCodes : List VKey)
    (cv : String × VType) : ℕ :=
  1 + (covStepRows t voi vt voiCodes cv).length

/-- Rows before the first covariate block: the header row and the optional
all-participants row. -/
def headerRows (totalRow : Bool) : ℕ := 1 + (if totalRow then 1 else 0)

/-- Row index of the blank row that starts covariate k's block. -/
def blankRowIdx (t : Tab) (voi : String) (vt : VType) (voiCodes : List VKey)
    (totalRow : Bool) (cvs : List (String × VType)) (k : ℕ) : ℕ :=
  headerRows totalRow + ((cvs.take k).map (covRowCount t voi vt voiCodes)).sum

/-- The per-variable-of-interest assembly loop of generate_bivariate_table:
concatenate each block's columns to the table and append its physical column
count to the grouping descriptor. -/
def voiLoop (t : Tab) (covs : List String) (ctypes : List VType) (L : ℕ)
    (totalRow : Bool) :
    List (String × VType) → (List String × Grid) → List ℕ →
    Option ((List String × Grid) × List ℕ)
  | [], tbl, grp => some (tbl, grp)
  | (v, vty) :: rest, tbl, grp => do
    let (bn, bg) ← calculate_variable_of_interest_columns t covs ctypes v vty L totalRow
    voiLoop t covs ctypes L totalRow rest (tbl.1 ++ bn, tbl.2 ++ bg) (grp ++ [bg.length])

/-- Tabulator.generate_bivariate_table (tabulator.py lines 327-384): the name
column (grouping entry 1), the optional total column (grouping entry 1), then
one block per variable of interest, each block built with table_length =
len(result) and contributing its column count to the grouping. -/
def generate_bivariate_table (t : Tab) (covs : List String) (ctypes : List VType)
    (vois : List String) (voitypes : List VType) (missing totalRow totalCol : Bool)
    (suffix : String) : Option ((List String × Grid) × List ℕ) := do
  let nameCol := calculate_covariate_name_column t covs ctypes totalRow suffix
  let (base, grp0) ←
    if totalCol then do
      let tc ← calculate_total_column t covs ctypes missing totalRow
      pure (((("" : String) :: [""], ([nameCol, tc] : Grid)), ([1, 1] : List ℕ)))
    else some (((("" : String) :: [], ([nameCol] : Grid)), ([1] : List ℕ)))
  voiLoop t covs ctypes nameCol.length totalRow (vois.zip voitypes) base grp0


/-- Shape invariant for a block under construction: the column count and every
column's row count. -/
def GridOK (g : Grid) (W L : ℕ) : Prop :=
  g.length = W ∧ ∀ col ∈ g, col.length = L

/-- All cells from a row downward are still the blank fill value. -/
def BlankFrom (g : Grid) (r : ℕ) : Prop :=
  ∀ c i, r ≤ i → cellD g c i = ""


/-- A small concrete dataset: an unregistered binary covariate sex and an
unregistered binary variable of interest smoke. -/
def smokeTab : Tab :=
  { data := fun v =>
      if v = "sex" then [some 1, some 1, some 2, some 2]
      else if v = "smoke" then [some 1, some 2, some 1, some 1] else []
    sampleSize := 4
    codebook := []
    decimalPlaces := 2 }

/- ------------------------------------------------------------------ -/
/- Helper lemmas about entries built by append.                        -/
/- ------------------------------------------------------------------ -/

/-- Well-formedness produced by `Codebook.append`: the variable-label
pseudo-entry sits first and the keys are pairwise distinct (dict keys). -/
def EntryWF (e : Entry) : Prop :=
  (∃ l, e.head? = some (labelKey, l)) ∧ (e.map Prod.fst).Nodup

lemma entryInsert_map_fst_of_mem (e : Entry) (k : VKey) (v : String)
    (h : k ∈ e.map Prod.fst) :
    (entryInsert e k v).map Prod.fst = e.map Prod.fst := by
  unfold entryInsert
  rw [if_pos h, List.map_map]
  apply List.map_congr_left
  intro p _
  by_cases hp : p.1 = k
  · simp [Function.comp, hp]
  · simp [Function.comp, hp]

lemma entryInsert_WF (e : Entry) (k : VKey) (v : String) (h : EntryWF e) :
    EntryWF (entryInsert e k v) := by
  obtain ⟨⟨l, hl⟩, hnd⟩ := h
  cases e with
  | nil => simp at hl
  | cons p rest =>
    simp only [List.head?_cons, Option.some.injEq] at hl
    subst hl
    constructor
    · unfold entryInsert
      split
      · by_cases hk : labelKey = k
        · subst hk; exact ⟨v, by simp⟩
        · exact ⟨l, by simp [hk]⟩
      · exact ⟨l, by simp⟩
    · by_cases hmem : k ∈ ((labelKey, l) :: rest).map Prod.fst
      · rw [entryInsert_map_fst_of_mem _ _ _ hmem]; exact hnd
      · unfold entryInsert
        rw [if_neg hmem]
        rw [List.map_append]
        simp only [List.map_cons, List.map_nil]
        exact List.Nodup.append hnd (List.nodup_singleton k)
          (by
            intro a ha hb
            simp only [List.mem_singleton] at hb
            subst hb
            exact hmem ha)

lemma mkEntry_WF (vl : String) (ps : List (VKey × String)) : EntryWF (mkEntry vl ps) := by
  unfold mkEntry
  have base : EntryWF [(labelKey, vl)] := ⟨⟨vl, rfl⟩, by simp⟩
  generalize hE : ([(labelKey, vl)] : Entry) = e at base
  clear hE
  induction ps generalizing e with
  | nil => exact base
  | cons p rest ih => exact ih _ (entryInsert_WF _ _ _ base)

/- ------------------------------------------------------------------ -/
/- Helper lemmas about first-appearance deduplication.                -/
/- ------------------------------------------------------------------ -/

lemma dedupKeepFirst_subset : ∀ (xs : List ℚ), ∀ c ∈ dedupKeepFirst xs, c ∈ xs
  | [] => by intro c hc; simp [dedupKeepFirst] at hc
  | x :: xs => by
    intro c hc
    simp only [dedupKeepFirst] at hc
    rcases List.mem_cons.mp hc with hc | hc
    · simp [hc]
    · refine List.mem_cons.mpr (Or.inr ?_)
      have := dedupKeepFirst_subset (xs.filter (fun y => y ≠ x)) c hc
      exact (List.mem_filter.mp this).1
termination_by xs => xs.length
decreasing_by
  simp only [List.length_cons]
  exact Nat.lt_succ_of_le (List.length_filter_le _ _)

lemma dedupKeepFirst_nodup : ∀ (xs : List ℚ), (dedupKeepFirst xs).Nodup
  | [] => by simp [dedupKeepFirst]
  | x :: xs => by
    simp only [dedupKeepFirst]
    refine List.nodup_cons.mpr ⟨?_, dedupKeepFirst_nodup (xs.filter (fun y => y ≠ x))⟩
    intro hmem
    have := dedupKeepFirst_subset _ _ hmem
    have := (List.mem_filter.mp this).2
    simp at this
termination_by xs => xs.length
decreasing_by
  simp only [List.length_cons]
  exact Nat.lt_succ_of_le (List.length_filter_le _ _)

lemma pdUniqueAux_eq : ∀ (xs acc : List ℚ),
    pdUniqueAux acc xs = acc ++ dedupKeepFirst (xs.filter (fun y => y ∉ acc))
  | [], acc => by simp [pdUniqueAux, dedupKeepFirst]
  | x :: xs, acc => by
    rw [pdUniqueAux]
    by_cases hx : x ∈ acc
    · rw [if_pos hx, pdUniqueAux_eq xs acc]
      congr 2
      simp only [List.filter_cons]
      rw [if_neg (by simp [hx])]
    · rw [if_neg hx, pdUniqueAux_eq xs (acc ++ [x])]
      have hfil : xs.filter (fun y => y ∉ acc ++ [x])
          = (xs.filter (fun y => y ∉ acc)).filter (fun y => y ≠ x) := by
        rw [List.filter_filter]
        apply List.filter_congr
        intro a _
        by_cases hax : a = x
        · subst hax; simp
        · by_cases haacc : a ∈ acc <;> simp [hax, haacc]
      rw [hfil]
      simp only [List.filter_cons]
      rw [if_pos (by simp [hx])]
      simp only [dedupKeepFirst]
      simp [List.append_assoc]

lemma pdUnique_eq_dedupKeepFirst (xs : List ℚ) : pdUnique xs = dedupKeepFirst xs := by
  rw [pdUnique, pdUniqueAux_eq]
  simp only [List.nil_append]
  congr 1
  apply List.filter_eq_self.mpr
  intro a _
  simp

lemma pdUnique_nodup (xs : List ℚ) : (pdUnique xs).Nodup := by
  rw [pdUnique_eq_dedupKeepFirst]; exact dedupKeepFirst_nodup xs

lemma pdUnique_subset (xs : List ℚ) : ∀ c ∈ pdUnique xs, c ∈ xs := by
  rw [pdUnique_eq_dedupKeepFirst]; exact dedupKeepFirst_subset xs

/-- Summing, over the distinct values, the number of occurrences in the list
recovers the length of the list. -/
lemma dedupKeepFirst_count_sum : ∀ (xs : List ℚ),
    ((dedupKeepFirst xs).map (fun c => xs.countP (fun y => y = c))).sum = xs.length
  | [] => by simp [dedupKeepFirst]
  | x :: xs => by
    simp only [dedupKeepFirst]
    simp only [List.map_cons, List.sum_cons]
    have hcount : ∀ c ∈ dedupKeepFirst (xs.filter (fun y => y ≠ x)),
        (fun c => (x :: xs).countP (fun y => y = c)) c =
          (fun c => (xs.filter (fun y => y ≠ x)).countP (fun y => y = c)) c := by
      intro c hc
      have hcx : c ≠ x := by
        have := (List.mem_filter.mp (dedupKeepFirst_subset _ _ hc)).2
        simpa using this
      have hxc : ¬ (x = c) := fun h => hcx h.symm
      simp only []
      rw [List.countP_cons]
      rw [if_neg (by simpa using hxc), Nat.add_zero]
      rw [List.countP_filter]
      apply List.countP_congr
      intro a _
      constructor
      · intro h
        have ha : a = c := by simpa using h
        subst ha
        simp [hcx]
      · intro h
        have := (by simpa using h : a = c ∧ ¬ a = x).1
        simpa using this
    rw [List.map_congr_left hcount]
    rw [dedupKeepFirst_count_sum (xs.filter (fun y => y ≠ x))]
    have hx : (x :: xs).countP (fun y => y = x) = 1 + xs.countP (fun y => y = x) := by
      rw [List.countP_cons]
      simp [Nat.add_comm]
    rw [hx]
    have hsplit : xs.countP (fun y => y = x) + (xs.filter (fun y => y ≠ x)).length
        = xs.length := by
      rw [← List.countP_eq_length_filter]
      have hlen := List.length_eq_countP_add_countP (p := fun y => decide (y = x)) xs
      rw [hlen]
      congr 1
      apply List.countP_congr
      intro a _
      constructor
      · intro h
        have : ¬ a = x := by simpa using h
        simpa using this
      · intro h
        have : ¬ a = x := by simpa using h
        simpa using this
    simp only [List.length_cons]
    omega
termination_by xs => xs.length
decreasing_by
  simp only [List.length_cons]
  exact Nat.lt_succ_of_le (List.length_filter_le _ _)

lemma pdUnique_count_sum (xs : List ℚ) :
    ((pdUnique xs).map (fun c => xs.countP (fun y => y = c))).sum = xs.length := by
  rw [pdUnique_eq_dedupKeepFirst]; exact dedupKeepFirst_count_sum xs

/- ------------------------------------------------------------------ -/
/- Claims C4, C5, C9, C10.                                             -/
/- ------------------------------------------------------------------ -/

/-- Claim C4: for a variable whose directory entry was registered by append,
split_codes_labels returns exactly the entry's code/label pairs after the
variable-label pseudo-entry, in directory insertion order: the returned codes
are the keys after the pseudo-entry, the returned labels are the variable
label followed by those codes' labels, and the pseudo-entry key is not among
the returned codes. -/
theorem claim4_split_registered (t : Tab) (vname vl : String)
    (ps : List (VKey × String)) (e : Entry)
    (he : cbLookup t.codebook vname = some e) (hmk : e = mkEntry vl ps) :
    ∃ l, e.head? = some (labelKey, l) ∧
      splitCodesLabels t vname = ((e.drop 1).map Prod.fst, l :: (e.drop 1).map Prod.snd) ∧
      labelKey ∉ (e.drop 1).map Prod.fst := by
  have hwf : EntryWF e := hmk ▸ mkEntry_WF vl ps
  obtain ⟨⟨l, hl⟩, hnd⟩ := hwf
  cases e with
  | nil => simp at hl
  | cons p rest =>
    simp only [List.head?_cons, Option.some.injEq] at hl
    subst hl
    refine ⟨l, rfl, ?_, ?_⟩
    · unfold splitCodesLabels
      rw [he]
      simp
    · simp only [List.map_cons, List.nodup_cons] at hnd
      simpa using hnd.1

def genderCb : Codebook :=
  cbAppend [] "gender" "Gender" [(VKey.num 1, "Male"), (VKey.num 2, "Female")]

def genderTab : Tab :=
  { data := fun v => if v = "gender" then [some 1, some 1, some 2] else []
    sampleSize := 3
    codebook := genderCb
    decimalPlaces := 2 }

theorem claim4_witness :
    ∃ l, (mkEntry "Gender" [(VKey.num 1, "Male"), (VKey.num 2, "Female")]).head?
        = some (labelKey, l) ∧
      splitCodesLabels genderTab "gender" =
        (((mkEntry "Gender" [(VKey.num 1, "Male"), (VKey.num 2, "Female")]).drop 1).map Prod.fst,
          l :: ((mkEntry "Gender" [(VKey.num 1, "Male"), (VKey.num 2, "Female")]).drop 1).map Prod.snd) ∧
      labelKey ∉ ((mkEntry "Gender" [(VKey.num 1, "Male"), (VKey.num 2, "Female")]).drop 1).map Prod.fst :=
  claim4_split_registered genderTab "gender" "Gender"
    [(VKey.num 1, "Male"), (VKey.num 2, "Female")]
    (mkEntry "Gender" [(VKey.num 1, "Male"), (VKey.num 2, "Female")]) rfl rfl

/-- Claim C5: for a variable absent from the directory, split_codes_labels
returns as codes the distinct non-missing observed values in order of first
appearance truncated to at most 20 (so 25 distinct values yield exactly 20),
and as labels the variable name followed by the string form of each returned
code.  The first-appearance scan is also characterised by the head-first
recursion, the returned codes are pairwise distinct, and every one of them is
observed in the column. -/
theorem claim5_split_unregistered (t : Tab) (vname : String)
    (hcb : cbLookup t.codebook vname = none) :
    splitCodesLabels t vname =
      (((pdUnique ((t.data vname).filterMap id)).take 20).map VKey.num,
        vname :: ((pdUnique ((t.data vname).filterMap id)).take 20).map valStr) ∧
    pdUnique ((t.data vname).filterMap id)
      = dedupKeepFirst ((t.data vname).filterMap id) ∧
    (pdUnique ((t.data vname).filterMap id)).Nodup ∧
    (∀ q ∈ pdUnique ((t.data vname).filterMap id), some q ∈ t.data vname) ∧
    (splitCodesLabels t vname).1.length
      = min (pdUnique ((t.data vname).filterMap id)).length 20 := by
  constructor
  · unfold splitCodesLabels
    rw [hcb]
  constructor
  · exact pdUnique_eq_dedupKeepFirst _
  constructor
  · exact pdUnique_nodup _
  constructor
  · intro q hq
    have := pdUnique_subset _ _ hq
    have := List.mem_filterMap.mp this
    obtain ⟨o, ho, hid⟩ := this
    cases o with
    | none => simp at hid
    | some r =>
      simp only [id] at hid
      exact hid ▸ ho
  · unfold splitCodesLabels
    rw [hcb]
    simp [List.length_take, Nat.min_comm]

def unreg25Tab : Tab :=
  { data := fun v => if v = "score" then (List.range 25).map (fun n => some (n : ℚ)) else []
    sampleSize := 25
    codebook := []
    decimalPlaces := 2 }

theorem claim5_witness :
    (splitCodesLabels unreg25Tab "score" =
      (((pdUnique ((unreg25Tab.data "score").filterMap id)).take 20).map VKey.num,
        "score" :: ((pdUnique ((unreg25Tab.data "score").filterMap id)).take 20).map valStr) ∧
    pdUnique ((unreg25Tab.data "score").filterMap id)
      = dedupKeepFirst ((unreg25Tab.data "score").filterMap id) ∧
    (pdUnique ((unreg25Tab.data "score").filterMap id)).Nodup ∧
    (∀ q ∈ pdUnique ((unreg25Tab.data "score").filterMap id), some q ∈ unreg25Tab.data "score") ∧
    (splitCodesLabels unreg25Tab "score").1.length
      = min (pdUnique ((unreg25Tab.data "score").filterMap id)).length 20) ∧
    (splitCodesLabels unreg25Tab "score").1.length = 20 :=
  ⟨claim5_split_unregistered unreg25Tab "score" rfl, by decide⟩

/-- Claim C9: the association/test operation for a numeric variable against a
categorical stratifying variable raises the InvalidArgument error exactly when
the categorical column has fewer than two distinct observed (non-missing)
categories; with two or more categories it proceeds without that error. -/
theorem claim9_anova_guard (name0 : String) (contCol catCol : List (Option ℚ)) :
    ((∃ m, anova_or_t_from_variables name0 contCol catCol = Except.error m) ↔
      (pdUnique (catCol.filterMap id)).length < 2) ∧
    (2 ≤ (pdUnique (catCol.filterMap id)).length →
      anova_or_t_from_variables name0 contCol catCol = Except.ok ()) := by
  unfold anova_or_t_from_variables
  by_cases h : (pdUnique (catCol.filterMap id)).length < 2
  · rw [if_pos h]
    refine ⟨⟨fun _ => h, fun _ => ⟨_, rfl⟩⟩, fun h2 => ?_⟩
    omega
  · rw [if_neg h]
    refine ⟨⟨fun hm => ?_, fun hlt => absurd hlt h⟩, fun _ => rfl⟩
    obtain ⟨m, hm⟩ := hm
    cases hm

/-- Claim C10: for a variable registered via append, the reserved internal key
is reachable through the public per-code lookup: get_code_label with the
pseudo-entry key returns the stored variable label (the same string
get_variable_label returns), not the fallback str(code). -/
theorem claim10_label_key_reachable (cb : Codebook) (vname vl : String)
    (ps : List (VKey × String))
    (he : cbLookup cb vname = some (mkEntry vl ps)) :
    get_code_label cb vname labelKey = get_variable_label cb vname ∧
    ∃ l, (mkEntry vl ps).head? = some (labelKey, l) ∧
      get_code_label cb vname labelKey = l := by
  obtain ⟨⟨l, hl⟩, _⟩ := mkEntry_WF vl ps
  have hfind : (mkEntry vl ps).find? (fun p => p.1 = labelKey) = some (labelKey, l) := by
    cases hE : mkEntry vl ps with
    | nil => rw [hE] at hl; simp at hl
    | cons p rest =>
      rw [hE] at hl
      simp only [List.head?_cons, Option.some.injEq] at hl
      subst hl
      simp [List.find?_cons]
  constructor
  · unfold get_code_label get_variable_label
    rw [he]
    dsimp only
    rw [hfind]
  · refine ⟨l, hl, ?_⟩
    unfold get_code_label
    rw [he]
    dsimp only
    rw [hfind]

/-- Claim C8 counterexample: over the values 18, 25, 18, 25, 18, 18 the
total-column summary cell for a Normal-numeric covariate at 2 decimal places
is not the string claimed by the spec; with mean 20.333 and the sample
variance 196 / 15 the standard deviation is about 3.615, so the cell cannot
read 3.50. -/
theorem claim8_counterexample :
    ¬ calculate_total_column ageTab ["age"] [VType.N] false false
      = some ["Total", "", "20.33 (3.50)"] := by with_unfolding_all decide

/-- Claim C8 (amended): over the values 18, 25, 18, 25, 18, 18 the
total-column summary cell at 2 decimal places reads 20.33 (3.61) - the mean
is 20.333 and the sample-variance standard deviation is 3.6148. -/
theorem claim8_total_mean_sd :
    calculate_total_column ageTab ["age"] [VType.N] false false
      = some ["Total", "", "20.33 (3.61)"] := by with_unfolding_all decide


theorem claim10_witness :
    get_code_label genderCb "gender" labelKey = get_variable_label genderCb "gender" ∧
    ∃ l, (mkEntry "Gender" [(VKey.num 1, "Male"), (VKey.num 2, "Female")]).head?
        = some (labelKey, l) ∧
      get_code_label genderCb "gender" labelKey = l :=
  claim10_label_key_reachable genderCb "gender" "Gender"
    [(VKey.num 1, "Male"), (VKey.num 2, "Female")] rfl


/- ------------------------------------------------------------------ -/
/- Claims C6 and C7.                                                   -/
/- ------------------------------------------------------------------ -/

lemma countMatches_num_eq (col : List (Option ℚ)) (c : ℚ) :
    countMatches col (VKey.num c) = (col.filterMap id).countP (fun y => y = c) := by
  rw [List.countP_filterMap]
  unfold countMatches
  apply List.countP_congr
  intro o _
  cases o <;> simp [vmatch]

/-- Claim C6 (amended): the coefficient is Pearson exactly when both sides are
Normal-numeric and Spearman exactly when neither side is Categorical and at
least one is Non-normal-numeric; the Spearman routine receives only the
complete pairs (pairwise exclusion of missing values), while the Pearson
routine receives the raw zipped columns, missing values included (scipy
pearsonr is called without nan handling, so missing values propagate instead
of being excluded). -/
theorem claim6_association_dispatch (ct vt : VType) (x y : List (Option ℚ)) :
    ((association ct vt x y).map Prod.fst = some CorrKind.pearson ↔
      ct = VType.N ∧ vt = VType.N) ∧
    ((association ct vt x y).map Prod.fst = some CorrKind.spearman ↔
      (ct ≠ VType.C ∧ vt ≠ VType.C ∧ (ct = VType.U ∨ vt = VType.U))) ∧
    (∀ ps, association ct vt x y = some (CorrKind.spearman, ps) →
      ps = spearmanInputPairs x y ∧ ∀ p ∈ ps, p.1.isSome ∧ p.2.isSome) ∧
    (∀ ps, association ct vt x y = some (CorrKind.pearson, ps) →
      ps = pearsonInputPairs x y) := by
  have hmem : ∀ p ∈ spearmanInputPairs x y, p.1.isSome ∧ p.2.isSome := by
    intro p hp
    have := List.mem_filter.mp hp
    have hb := this.2
    simp only [Bool.and_eq_true] at hb
    exact ⟨hb.1, hb.2⟩
  cases ct <;> cases vt <;>
    simp only [association, Option.map_some', Option.map_none', Prod.fst] <;>
    refine ⟨by simp, by simp, ?_, ?_⟩ <;>
    intro ps hps <;> simp_all <;> exact hmem

theorem claim6_counterexample :
    association VType.N VType.N [some 1, none, some 3] [some 4, some 5, some 6]
      = some (CorrKind.pearson, [(some 1, some 4), (none, some 5), (some 3, some 6)]) ∧
    (none, some 5) ∈ pearsonInputPairs [some 1, none, some 3] [some 4, some 5, some 6] ∧
    ((none : Option ℚ), some (5 : ℚ)).1.isSome = false ∧
    pearsonR 2 [some 1, none, some 3] [some 4, some 5, some 6] = none := by
  with_unfolding_all decide

theorem claim6_witness :
    ((association VType.U VType.N [some 1, none] [some 2, some 3]).map Prod.fst
        = some CorrKind.pearson ↔ VType.U = VType.N ∧ VType.N = VType.N) ∧
    ((association VType.U VType.N [some 1, none] [some 2, some 3]).map Prod.fst
        = some CorrKind.spearman ↔
      (VType.U ≠ VType.C ∧ VType.N ≠ VType.C ∧ (VType.U = VType.U ∨ VType.N = VType.U))) ∧
    (∀ ps, association VType.U VType.N [some 1, none] [some 2, some 3]
        = some (CorrKind.spearman, ps) →
      ps = spearmanInputPairs [some 1, none] [some 2, some 3] ∧
        ∀ p ∈ ps, p.1.isSome ∧ p.2.isSome) ∧
    (∀ ps, association VType.U VType.N [some 1, none] [some 2, some 3]
        = some (CorrKind.pearson, ps) →
      ps = pearsonInputPairs [some 1, none] [some 2, some 3]) :=
  claim6_association_dispatch VType.U VType.N [some 1, none] [some 2, some 3]

theorem claim7_counterexample :
    calculate_total_column eduTab ["education"] [VType.C] false false
      = some ["Total", "", "2 (33.33%)", "1 (16.67%)", "1 (16.67%)"] ∧
    (categoryCounts eduTab "education").sum = 4 ∧
    nonMissingCount eduTab "education" = 6 ∧
    (categoryCounts eduTab "education").sum ≠ nonMissingCount eduTab "education" := by
  with_unfolding_all decide

/-- Claim C7 (amended): the counts in the total column's per-category cells
sum to the number of rows matching one of the covariate's codes; this equals
the non-missing row count whenever the codes cover every observed value, in
particular for every covariate absent from the directory whose distinct
non-missing values fit the 20-value cap.  A registered covariate whose
directory codes do not cover the data undercounts (see the counterexample,
which is the repository's own education test data). -/
theorem claim7_counts_sum_unregistered (t : Tab) (vname : String)
    (hcb : cbLookup t.codebook vname = none)
    (hcap : (pdUnique ((t.data vname).filterMap id)).length ≤ 20) :
    (categoryCounts t vname).sum = nonMissingCount t vname := by
  unfold categoryCounts nonMissingCount splitCodesLabels
  rw [hcb]
  simp only []
  rw [List.take_of_length_le hcap, List.map_map]
  have hpt : ∀ c ∈ pdUnique ((t.data vname).filterMap id),
      ((fun k => countMatches (t.data vname) k) ∘ VKey.num) c
        = (fun c => ((t.data vname).filterMap id).countP (fun y => y = c)) c := by
    intro c _
    simp only [Function.comp]
    exact countMatches_num_eq (t.data vname) c
  rw [List.map_congr_left hpt]
  exact pdUnique_count_sum ((t.data vname).filterMap id)

theorem claim7_witness :
    cbLookup sexTab.codebook "sex" = none ∧
    (pdUnique ((sexTab.data "sex").filterMap id)).length ≤ 20 ∧
    (categoryCounts sexTab "sex").sum = nonMissingCount sexTab "sex" ∧
    (categoryCounts sexTab "sex").sum = 3 :=
  ⟨rfl, by decide,
    claim7_counts_sum_unregistered sexTab "sex" rfl (by decide), by with_unfolding_all decide⟩


/- ------------------------------------------------------------------ -/
/- Grid write lemmas.                                                  -/
/- ------------------------------------------------------------------ -/

lemma setCell_some {g : Grid} {W L r c : ℕ} {s : String}
    (hg : GridOK g W L) (hc : c < W) (hr : r < L) :
    ∃ g', setCell g r c s = some g' ∧ GridOK g' W L ∧
      cellD g' c r = s ∧
      (∀ c' i, c' ≠ c ∨ i ≠ r → cellD g' c' i = cellD g c' i) := by
  obtain ⟨hlen, hcols⟩ := hg
  have hclen : c < g.length := by omega
  have hcollen : g[c].length = L := hcols _ (List.getElem_mem hclen)
  refine ⟨g.set c (g[c].set r s), ?_, ?_, ?_, ?_⟩
  · unfold setCell
    rw [List.getElem?_eq_getElem hclen]
    dsimp only
    rw [if_pos (by omega)]
  · refine ⟨by simp [hlen], ?_⟩
    intro col hcol
    rcases List.mem_or_eq_of_mem_set hcol with h | h
    · exact hcols _ h
    · subst h; simp [hcollen]
  · simp only [cellD, List.getD_eq_getElem?_getD]
    rw [List.getElem?_set_self (by omega)]
    simp only [Option.getD_some]
    rw [List.getElem?_set_self (by omega)]
    rfl
  · intro c' i h
    simp only [cellD, List.getD_eq_getElem?_getD]
    by_cases hcc : c' = c
    · subst hcc
      rcases h with h | h
      · omega
      · rw [List.getElem?_set_self (by omega)]
        simp only [Option.getD_some]
        rw [List.getElem?_eq_getElem hclen]
        simp only [Option.getD_some]
        rw [List.getElem?_set_ne (by omega)]
    · rw [List.getElem?_set_ne (by intro hh; exact hcc hh.symm)]

lemma writeRowM_some : ∀ (cells : List (Option String)) (g : Grid) (r c0 : ℕ) {W L : ℕ}
    (_hg : GridOK g W L) (_hr : r < L) (_hw : c0 + cells.length ≤ W)
    (_hsome : ∀ os ∈ cells, os.isSome),
    ∃ g', writeRowM g r c0 cells = some g' ∧ GridOK g' W L ∧
      (∀ c' i, i ≠ r ∨ c' < c0 → cellD g' c' i = cellD g c' i) ∧
      (∀ j, j < cells.length → cellD g' (c0 + j) r = (cells.getD j none).getD "")
  | [], g, r, c0, W, L, hg, _, _, _ => by
    exact ⟨g, rfl, hg, fun _ _ _ => rfl, fun j hj => by simp at hj⟩
  | os :: rest, g, r, c0, W, L, hg, hr, hw, hsome => by
    have hos : os.isSome := hsome _ (List.mem_cons_self _ _)
    obtain ⟨s, hs⟩ := Option.isSome_iff_exists.mp hos
    subst hs
    have hc0 : c0 < W := by simp only [List.length_cons] at hw; omega
    obtain ⟨g1, hset, hg1, hcell1, hpres1⟩ := setCell_some (s := s) hg hc0 hr
    obtain ⟨g', hrec, hg', hpres', hcontent'⟩ :=
      writeRowM_some rest g1 r (c0 + 1) hg1 hr
        (by simp only [List.length_cons] at hw; omega)
        (fun o ho => hsome o (List.mem_cons_of_mem _ ho))
    refine ⟨g', ?_, hg', ?_, ?_⟩
    · rw [writeRowM]
      simp only [Option.bind_eq_bind, Option.some_bind]
      rw [hset]
      simp only [Option.some_bind]
      exact hrec
    · intro c' i h
      have h1 : cellD g' c' i = cellD g1 c' i := by
        apply hpres'
        rcases h with h | h
        · exact Or.inl h
        · exact Or.inr (by omega)
      rw [h1]
      apply hpres1
      rcases h with h | h
      · exact Or.inr h
      · exact Or.inl (by omega)
    · intro j hj
      cases j with
      | zero =>
        have : cellD g' c0 r = cellD g1 c0 r := hpres' c0 r (Or.inr (by omega))
        rw [Nat.add_zero, this, hcell1]
        rfl
      | succ j =>
        have hj' : j < rest.length := by simp only [List.length_cons] at hj; omega
        have hrec := hcontent' j hj'
        have harr : c0 + (j + 1) = (c0 + 1) + j := by omega
        rw [harr, List.getD_cons_succ]
        exact hrec

lemma writeCells2D_some : ∀ (rows : List (List (Option String))) (g : Grid) (r : ℕ) {W L : ℕ}
    (_hg : GridOK g W L) (_hend : r + rows.length ≤ L)
    (_hrow : ∀ row ∈ rows, row.length ≤ W ∧ ∀ os ∈ row, os.isSome),
    ∃ g', writeCells2D g r rows = some (g', r + rows.length) ∧ GridOK g' W L ∧
      (∀ c i, i < r ∨ r + rows.length ≤ i → cellD g' c i = cellD g c i) ∧
      (∀ k, k < rows.length → ∀ j, j < (rows.getD k []).length →
        cellD g' j (r + k) = (((rows.getD k []).getD j none).getD ""))
  | [], g, r, W, L, hg, _, _ => by
    exact ⟨g, rfl, hg, fun _ _ _ => rfl, fun k hk => by simp at hk⟩
  | row :: rows, g, r, W, L, hg, hend, hrow => by
    have hr : r < L := by simp at hend; omega
    obtain ⟨hrw, hrs⟩ := hrow row (List.mem_cons_self _ _)
    obtain ⟨g1, hwrite, hg1, hpres1, hcontent1⟩ :=
      writeRowM_some row g r 0 hg hr (by omega) hrs
    obtain ⟨g', hrec, hg', hpres', hcontent'⟩ :=
      writeCells2D_some rows g1 (r + 1) hg1 (by simp at hend ⊢; omega)
        (fun rw hrw => hrow rw (List.mem_cons_of_mem _ hrw))
    refine ⟨g', ?_, hg', ?_, ?_⟩
    · rw [writeCells2D]
      rw [hwrite]
      simp only [Option.bind_eq_bind, Option.some_bind]
      rw [hrec]
      congr 2
      simp only [List.length_cons]
      omega
    · intro c i h
      have h1 : cellD g' c i = cellD g1 c i := by
        apply hpres'
        rcases h with h | h
        · exact Or.inl (by omega)
        · exact Or.inr (by simp at h ⊢; omega)
      rw [h1]
      apply hpres1
      rcases h with h | h
      · exact Or.inl (by omega)
      · exact Or.inl (by simp at h; omega)
    · intro k hk j hj
      cases k with
      | zero =>
        have hj0 : j < row.length := by simpa using hj
        have : cellD g' j r = cellD g1 j r := hpres' j r (Or.inl (by omega))
        rw [Nat.add_zero, this]
        have := hcontent1 j hj0
        simpa using this
      | succ k =>
        have hk' : k < rows.length := by simp only [List.length_cons] at hk; omega
        rw [List.getD_cons_succ] at hj
        have hrec := hcontent' k hk' j hj
        have harr : r + (k + 1) = (r + 1) + k := by omega
        rw [harr, List.getD_cons_succ]
        exact hrec


lemma covStep_some (t : Tab) (voi : String) (vt : VType) (voiCodes : List VKey)
    (cv : String × VType) {g : Grid} {r W L : ℕ}
    (hg : GridOK g W L) (hblank : BlankFrom g r)
    (hend : r + covRowCount t voi vt voiCodes cv ≤ L)
    (hrow : ∀ row ∈ covStepRows t voi vt voiCodes cv,
      row.length ≤ W ∧ ∀ os ∈ row, os.isSome) :
    ∃ g', covStep t voi vt voiCodes (g, r) cv
        = some (g', r + covRowCount t voi vt voiCodes cv) ∧
      GridOK g' W L ∧ BlankFrom g' (r + covRowCount t voi vt voiCodes cv) ∧
      (∀ c i, i ≤ r → cellD g' c i = cellD g c i) := by
  have hcnt : covRowCount t voi vt voiCodes cv
      = 1 + (covStepRows t voi vt voiCodes cv).length := rfl
  have hend' : (r + 1) + (covStepRows t voi vt voiCodes cv).length ≤ L := by omega
  obtain ⟨g', hw, hg', hpres, _⟩ :=
    writeCells2D_some (covStepRows t voi vt voiCodes cv) g (r + 1) hg hend' hrow
  refine ⟨g', ?_, hg', ?_, ?_⟩
  · unfold covStep
    rw [hw]
    congr 2
    omega
  · intro c i hi
    have h1 : cellD g' c i = cellD g c i := by
      apply hpres
      right
      omega
    rw [h1]
    exact hblank c i (by omega)
  · intro c i hi
    exact hpres c i (Or.inl (by omega))

lemma covLoop_some (t : Tab) (voi : String) (vt : VType) (voiCodes : List VKey) :
    ∀ (cvs : List (String × VType)) (g : Grid) (r : ℕ) {W L : ℕ}
    (_hg : GridOK g W L) (_hblank : BlankFrom g r)
    (_hend : r + (cvs.map (covRowCount t voi vt voiCodes)).sum ≤ L)
    (_hrows : ∀ cv ∈ cvs, ∀ row ∈ covStepRows t voi vt voiCodes cv,
      row.length ≤ W ∧ ∀ os ∈ row, os.isSome),
    ∃ g', cvs.foldlM (covStep t voi vt voiCodes) (g, r)
        = some (g', r + (cvs.map (covRowCount t voi vt voiCodes)).sum) ∧
      GridOK g' W L ∧
      BlankFrom g' (r + (cvs.map (covRowCount t voi vt voiCodes)).sum) ∧
      (∀ c i, i ≤ r → cellD g' c i = cellD g c i) ∧
      (∀ k, k < cvs.length → ∀ c,
        cellD g' c (r + ((cvs.take k).map (covRowCount t voi vt voiCodes)).sum) = "")
  | [], g, r, W, L, hg, hblank, hend, _ => by
    refine ⟨g, by simp [List.foldlM], hg, by simpa using hblank, fun _ _ _ => rfl, ?_⟩
    intro k hk
    simp at hk
  | cv :: rest, g, r, W, L, hg, hblank, hend, hrows => by
    have hend1 : r + covRowCount t voi vt voiCodes cv ≤ L := by
      simp only [List.map_cons, List.sum_cons] at hend
      omega
    obtain ⟨g1, hstep, hg1, hblank1, hpres1⟩ :=
      covStep_some t voi vt voiCodes cv hg hblank hend1
        (hrows cv (List.mem_cons_self _ _))
    obtain ⟨g', hrec, hg', hblank', hpres', hblanks'⟩ :=
      covLoop_some t voi vt voiCodes rest g1 (r + covRowCount t voi vt voiCodes cv)
        hg1 hblank1
        (by simp only [List.map_cons, List.sum_cons] at hend ⊢; omega)
        (fun cv' h => hrows cv' (List.mem_cons_of_mem _ h))
    refine ⟨g', ?_, hg', ?_, ?_, ?_⟩
    · rw [List.foldlM_cons, hstep]
      simp only [Option.bind_eq_bind, Option.some_bind]
      rw [hrec]
      congr 2
      simp only [List.map_cons, List.sum_cons]
      omega
    · intro c i hi
      apply hblank'
      simp only [List.map_cons, List.sum_cons] at hi
      omega
    · intro c i hi
      rw [hpres' c i (by omega)]
      exact hpres1 c i hi
    · intro k hk c
      cases k with
      | zero =>
        simp only [List.take_zero, List.map_nil, List.sum_nil, Nat.add_zero]
        rw [hpres' c r (by omega), hpres1 c r (by omega)]
        exact hblank c r (by omega)
      | succ k =>
        have hk' : k < rest.length := by
          simp only [List.length_cons] at hk
          omega
        have harr : r + ((List.take (k + 1) (cv :: rest)).map
              (covRowCount t voi vt voiCodes)).sum
            = (r + covRowCount t voi vt voiCodes cv)
              + ((rest.take k).map (covRowCount t voi vt voiCodes)).sum := by
          simp only [List.take_succ_cons, List.map_cons, List.sum_cons]
          omega
        rw [harr]
        exact hblanks' k hk' c

/- Row and column bookkeeping. -/

lemma codes_labels_length (t : Tab) (vname : String) :
    (splitCodesLabels t vname).1.length = (splitCodesLabels t vname).2.length - 1 := by
  unfold splitCodesLabels
  cases h : cbLookup t.codebook vname with
  | some e => simp
  | none => simp

lemma covStepRows_length (t : Tab) (voi : String) (vt : VType) (voiCodes : List VKey)
    (cv : String × VType) :
    (covStepRows t voi vt voiCodes cv).length
      = if cv.2 = VType.C then (splitCodesLabels t cv.1).1.length else 1 := by
  rcases cv with ⟨cname, ct⟩
  cases ct <;> cases vt <;> simp [covStepRows]

lemma nameRows_covRowCount (t : Tab) (suffix voi : String) (vt : VType)
    (voiCodes : List VKey) (cv : String × VType) :
    (nameRowsFor t suffix cv).length = covRowCount t voi vt voiCodes cv := by
  have h1 : covRowCount t voi vt voiCodes cv
      = 1 + (covStepRows t voi vt voiCodes cv).length := rfl
  rw [h1, covStepRows_length]
  rcases cv with ⟨cname, ct⟩
  cases ct <;> simp [nameRowsFor, codes_labels_length] <;> omega

lemma foldl_append_length {α β : Type} (l : List α) (f : α → List β) (acc : List β) :
    (l.foldl (fun a x => a ++ f x) acc).length
      = acc.length + (l.map (fun x => (f x).length)).sum := by
  induction l generalizing acc with
  | nil => simp
  | cons x xs ih =>
    simp only [List.foldl_cons, List.map_cons, List.sum_cons, ih, List.length_append]
    omega

lemma nameCol_length (t : Tab) (covs : List String) (ctypes : List VType)
    (totalRow : Bool) (suffix : String) :
    (calculate_covariate_name_column t covs ctypes totalRow suffix).length
      = headerRows totalRow
        + ((covs.zip ctypes).map (fun cv => (nameRowsFor t suffix cv).length)).sum := by
  unfold calculate_covariate_name_column headerRows
  rw [foldl_append_length]
  cases totalRow <;> simp

lemma strDedupAux_append_of_disjoint : ∀ (xs acc : List String),
    (∀ x ∈ xs, x ∉ acc) → xs.Nodup → strDedupAux acc xs = acc ++ xs
  | [], acc, _, _ => by simp [strDedupAux]
  | x :: xs, acc, hdisj, hnd => by
    rw [strDedupAux, if_neg (hdisj x (List.mem_cons_self x xs))]
    rw [strDedupAux_append_of_disjoint xs (acc ++ [x])
      (by
        intro y hy hmem
        rcases List.mem_append.mp hmem with h | h
        · exact hdisj y (List.mem_cons_of_mem x hy) h
        · rw [List.mem_singleton] at h
          rw [h] at hy
          exact (List.nodup_cons.mp hnd).1 hy)
      (List.nodup_cons.mp hnd).2]
    simp

lemma strDedup_of_nodup (xs : List String) (h : xs.Nodup) : strDedup xs = xs := by
  rw [strDedup, strDedupAux_append_of_disjoint xs [] (by simp) h]
  simp

lemma blockColNames_length_C (t : Tab) (voi : String)
    (hnd : ((splitCodesLabels t voi).2.drop 1).Nodup) :
    (blockColNames VType.C (splitCodesLabels t voi).2).length
      = (splitCodesLabels t voi).1.length := by
  simp only [blockColNames]
  rw [strDedup_of_nodup _ hnd]
  simp [codes_labels_length]

lemma countPercentCell_pos (dp n d : ℕ) (h : 0 < d) :
    countPercentCell dp n d
      = some (toString n ++ " (" ++ pctStr dp ((n : ℚ) / (d : ℚ)) ++ ")") := by
  unfold countPercentCell divQ?
  rw [if_neg (by simp; omega)]
  rfl

lemma covStepRows_ok (t : Tab) (voi : String) (vt : VType) (cv : String × VType)
    (hnd : vt = VType.C → ((splitCodesLabels t voi).2.drop 1).Nodup)
    (hpear : cv.2 = VType.N → vt = VType.N →
      (t.data voi).length = (t.data cv.1).length ∧ 2 ≤ (t.data voi).length)
    (hden : cv.2 = VType.C → vt = VType.C →
      ∀ k ∈ (splitCodesLabels t cv.1).1, 0 < countMatches (t.data cv.1) k) :
    ∀ row ∈ covStepRows t voi vt (splitCodesLabels t voi).1 cv,
      row.length ≤ (blockColNames vt (splitCodesLabels t voi).2).length ∧
        ∀ os ∈ row, os.isSome := by
  rcases cv with ⟨cname, ct⟩
  intro row hrow
  cases ct with
  | N =>
    cases vt with
    | N =>
      simp only [covStepRows, List.mem_singleton] at hrow
      subst hrow
      refine ⟨by simp [blockColNames], ?_⟩
      intro os hos
      rw [List.mem_singleton] at hos
      subst hos
      unfold pearsonCell
      rw [if_pos (hpear rfl rfl)]
      rfl
    | U =>
      simp only [covStepRows, List.mem_singleton] at hrow
      subst hrow
      exact ⟨by simp [blockColNames], by simp⟩
    | C =>
      simp only [covStepRows, List.mem_singleton] at hrow
      subst hrow
      refine ⟨?_, ?_⟩
      · rw [blockColNames_length_C t voi (hnd rfl)]
        simp
      · intro os hos
        obtain ⟨_, _, h⟩ := List.mem_map.mp hos
        rw [← h]
        rfl
  | U =>
    cases vt with
    | N =>
      simp only [covStepRows, List.mem_singleton] at hrow
      subst hrow
      exact ⟨by simp [blockColNames], by simp⟩
    | U =>
      simp only [covStepRows, List.mem_singleton] at hrow
      subst hrow
      exact ⟨by simp [blockColNames], by simp⟩
    | C =>
      simp only [covStepRows, List.mem_singleton] at hrow
      subst hrow
      refine ⟨?_, ?_⟩
      · rw [blockColNames_length_C t voi (hnd rfl)]
        simp
      · intro os hos
        obtain ⟨_, _, h⟩ := List.mem_map.mp hos
        rw [← h]
        rfl
  | C =>
    cases vt with
    | N =>
      simp only [covStepRows, List.mem_map] at hrow
      obtain ⟨cc, _, h⟩ := hrow
      rw [← h]
      exact ⟨by simp [blockColNames], by simp⟩
    | U =>
      simp only [covStepRows, List.mem_map] at hrow
      obtain ⟨cc, _, h⟩ := hrow
      rw [← h]
      exact ⟨by simp [blockColNames], by simp⟩
    | C =>
      simp only [covStepRows, List.mem_map] at hrow
      obtain ⟨cc, hcc, h⟩ := hrow
      rw [← h]
      refine ⟨?_, ?_⟩
      · rw [blockColNames_length_C t voi (hnd rfl)]
        simp
      · intro os hos
        obtain ⟨code, _, hc⟩ := List.mem_map.mp hos
        rw [← hc]
        rw [countPercentCell_pos _ _ _ (hden rfl rfl cc hcc)]
        rfl

lemma totalRowCells_ok (t : Tab) (voi : String) (vt : VType)
    (hnd : vt = VType.C → ((splitCodesLabels t voi).2.drop 1).Nodup)
    (hss : vt = VType.C → 0 < t.sampleSize) :
    (totalRowCells t voi vt (splitCodesLabels t voi).1).length
        ≤ (blockColNames vt (splitCodesLabels t voi).2).length ∧
      ∀ os ∈ totalRowCells t voi vt (splitCodesLabels t voi).1, os.isSome := by
  cases vt with
  | N => exact ⟨by simp [totalRowCells, blockColNames], by simp [totalRowCells]⟩
  | U => exact ⟨by simp [totalRowCells, blockColNames], by simp [totalRowCells]⟩
  | C =>
    refine ⟨by rw [blockColNames_length_C t voi (hnd rfl)]; simp [totalRowCells], ?_⟩
    intro os hos
    simp only [totalRowCells, List.mem_map] at hos
    obtain ⟨code, _, hc⟩ := hos
    rw [← hc]
    rw [countPercentCell_pos _ _ _ (hss rfl)]
    rfl

lemma initGrid_ok (names : List String) (L : ℕ) :
    GridOK (names.map (fun _ => List.replicate L "")) names.length L := by
  constructor
  · simp
  · intro col hcol
    obtain ⟨_, _, h⟩ := List.mem_map.mp hcol
    rw [← h]
    simp

lemma initGrid_blank (names : List String) (L : ℕ) :
    BlankFrom (names.map (fun _ => List.replicate L "")) 0 := by
  intro c i _
  unfold cellD
  simp only [List.getD_eq_getElem?_getD, List.getElem?_map]
  cases hnc : names[c]? with
  | none => simp
  | some nm =>
    simp only [Option.map_some', Option.getD_some, List.getElem?_replicate]
    by_cases hi : i < L <;> simp [hi]

lemma zipset_cellD : ∀ (nms : List String) (g : Grid)
    (_hlen : nms.length = g.length) (c i : ℕ), 1 ≤ i →
    cellD ((nms.zip g).map (fun p => p.2.set 0 p.1)) c i = cellD g c i
  | [], [], _, c, i, _ => by simp [List.zip_nil_left]
  | [], _ :: _, hlen, _, _, _ => by simp at hlen
  | _ :: _, [], hlen, _, _, _ => by simp at hlen
  | n :: nms, col :: g, hlen, c, i, hi => by
    cases c with
    | zero =>
      unfold cellD
      simp only [List.zip_cons_cons, List.map_cons, List.getD_cons_zero]
      simp only [List.getD_eq_getElem?_getD]
      rw [List.getElem?_set_ne (by omega)]
    | succ c =>
      unfold cellD
      simp only [List.zip_cons_cons, List.map_cons, List.getD_cons_succ]
      exact zipset_cellD nms g (by simpa using hlen) c i hi

lemma zipset_gridOK (nms : List String) (g : Grid) {W L : ℕ}
    (hlen : nms.length = g.length) (hg : GridOK g W L) :
    GridOK ((nms.zip g).map (fun p => p.2.set 0 p.1)) W L := by
  obtain ⟨hW, hcols⟩ := hg
  constructor
  · simp [List.length_zip, hlen, hW]
  · intro col hcol
    obtain ⟨p, hp, hpe⟩ := List.mem_map.mp hcol
    obtain ⟨_, h2⟩ := List.of_mem_zip hp
    rw [← hpe]
    simp [hcols _ h2]

lemma relabelBlock_some (vt : VType) (labels : List String) (g : Grid) {W L : ℕ}
    (hg : GridOK g W L) (hW : W = (blockColNames vt labels).length)
    (hndl : vt = VType.C → (labels.drop 1).Nodup)
    (hC : vt = VType.C → 2 ≤ labels.length) :
    ∃ nms g', relabelBlock vt labels g = some (nms, g') ∧ GridOK g' W L ∧
      (∀ c i, 1 ≤ i → cellD g' c i = cellD g c i) := by
  have hlen : (blockColNames vt labels).length = g.length := by
    rw [← hW]
    exact hg.1.symm
  have hg1 := zipset_gridOK (blockColNames vt labels) g hlen hg
  have hcell := zipset_cellD (blockColNames vt labels) g hlen
  have hg1len : (((blockColNames vt labels).zip g).map (fun p => p.2.set 0 p.1)).length
      = g.length := by
    simp [List.length_zip, hlen]
  cases vt with
  | N =>
    refine ⟨[""], _, ?_, hg1, hcell⟩
    unfold relabelBlock
    rw [if_pos ?_]
    rw [hg1len, ← hlen]
    simp [blockColNames]
  | U =>
    refine ⟨[""], _, ?_, hg1, hcell⟩
    unfold relabelBlock
    rw [if_pos ?_]
    rw [hg1len, ← hlen]
    simp [blockColNames]
  | C =>
    refine ⟨labels.headD "" :: List.replicate (labels.length - 2) "", _, ?_, hg1, hcell⟩
    unfold relabelBlock
    rw [if_pos ?_]
    rw [hg1len, ← hlen]
    have h2 : 2 ≤ labels.length := hC rfl
    simp only [blockColNames]
    rw [strDedup_of_nodup _ (hndl rfl)]
    simp only [List.length_cons, List.length_replicate, List.length_drop]
    omega


/- Total column length bookkeeping. -/

lemma mapM_option_length {α β : Type} (f : α → Option β) :
    ∀ (l : List α) (res : List β), l.mapM f = some res → res.length = l.length
  | [], res, h => by
    simp only [List.mapM_nil, Option.pure_def, Option.some.injEq] at h
    rw [← h]
    rfl
  | a :: l, res, h => by
    rw [List.mapM_cons] at h
    simp only [Option.bind_eq_bind, Option.pure_def, Option.bind_eq_some,
      Option.some.injEq] at h
    obtain ⟨b, _, bs, hbs, hres⟩ := h
    rw [← hres]
    simp only [List.length_cons]
    rw [mapM_option_length f l bs hbs]

lemma totalRowsFor_length (t : Tab) (missing : Bool) (suffix : String)
    (cv : String × VType) (l : List String)
    (h : totalRowsFor t missing cv = some l) :
    l.length = (nameRowsFor t suffix cv).length := by
  rcases cv with ⟨cname, ct⟩
  unfold totalRowsFor at h
  cases missing with
  | false =>
    simp only [Bool.false_eq_true, if_false, Option.bind_eq_bind, Option.some_bind] at h
    cases ct with
    | N =>
      simp only [Option.some_bind, Option.pure_def, Option.some.injEq] at h
      rw [← h]
      simp [nameRowsFor]
    | U =>
      simp only [Option.some_bind, Option.pure_def, Option.some.injEq] at h
      rw [← h]
      simp [nameRowsFor]
    | C =>
      rw [Option.bind_eq_some] at h
      obtain ⟨sc, hsc, hl⟩ := h
      simp only [Option.pure_def, Option.some.injEq] at hl
      rw [← hl]
      have hlen := mapM_option_length _ _ _ hsc
      simp only [List.length_cons, hlen, nameRowsFor]
      simp [codes_labels_length]
  | true =>
    simp only [if_true, Option.bind_eq_bind] at h
    rw [Option.bind_eq_some] at h
    obtain ⟨mc, _, h⟩ := h
    cases ct with
    | N =>
      simp only [Option.some_bind, Option.pure_def, Option.some.injEq] at h
      rw [← h]
      simp [nameRowsFor]
    | U =>
      simp only [Option.some_bind, Option.pure_def, Option.some.injEq] at h
      rw [← h]
      simp [nameRowsFor]
    | C =>
      rw [Option.bind_eq_some] at h
      obtain ⟨sc, hsc, hl⟩ := h
      simp only [Option.pure_def, Option.some.injEq] at hl
      rw [← hl]
      have hlen := mapM_option_length _ _ _ hsc
      simp only [List.length_cons, hlen, nameRowsFor]
      simp [codes_labels_length]

lemma mapM_totalRows_sum (t : Tab) (missing : Bool) (suffix : String) :
    ∀ (cvs : List (String × VType)) (parts : List (List String)),
      cvs.mapM (totalRowsFor t missing) = some parts →
      (parts.map List.length).sum
        = (cvs.map (fun cv => (nameRowsFor t suffix cv).length)).sum
  | [], parts, h => by
    simp only [List.mapM_nil, Option.pure_def, Option.some.injEq] at h
    rw [← h]
    rfl
  | cv :: rest, parts, h => by
    rw [List.mapM_cons] at h
    simp only [Option.bind_eq_bind, Option.pure_def, Option.bind_eq_some,
      Option.some.injEq] at h
    obtain ⟨x, hx, xs, hxs, hparts⟩ := h
    rw [← hparts]
    simp only [List.map_cons, List.sum_cons]
    rw [mapM_totalRows_sum t missing suffix rest xs hxs,
      totalRowsFor_length t missing suffix cv x hx]

lemma totalCol_length (t : Tab) (covs : List String) (ctypes : List VType)
    (missing totalRow : Bool) (suffix : String) (tc : List String)
    (h : calculate_total_column t covs ctypes missing totalRow = some tc) :
    tc.length = (calculate_covariate_name_column t covs ctypes totalRow suffix).length := by
  unfold calculate_total_column at h
  simp only [Option.bind_eq_bind, Option.pure_def, Option.bind_eq_some,
    Option.some.injEq] at h
  obtain ⟨parts, hparts, htc⟩ := h
  rw [← htc]
  rw [nameCol_length t covs ctypes totalRow suffix]
  simp only [List.length_append, List.length_flatten]
  rw [mapM_totalRows_sum t missing suffix (covs.zip ctypes) parts hparts]
  unfold headerRows
  cases totalRow <;> simp

/- ------------------------------------------------------------------ -/
/- Claim C1.                                                           -/
/- ------------------------------------------------------------------ -/

/-- Claim C1: for every call of the table builder - any covariates with their
N/U/C types, any variable of interest with its type, any total-row setting,
restricted to the inputs Python itself accepts (nonempty label lists, at
least one category for a categorical variable of interest with pairwise
distinct category labels - pandas collapses duplicate column names and the
crossed writes then raise - a positive denominator wherever a percentage is
computed, and columns of equal length at least two wherever scipy pearsonr
runs) - the produced column block has exactly as many rows as the table
built from the name column, to which the optional total column adds no rows
(its length equals the name column's); the sequential row cursor (one blank
row at the start of each covariate block, then the per-type rows) never
writes past the last row - every write is bounds-checked and the block is
nonetheless produced - and the blank cursor rows hold the empty string,
never a missing value (cells are strings and the grid is initialised with
blank fill). -/
theorem claim1_block_shape (t : Tab) (covs : List String) (ctypes : List VType)
    (voi : String) (vt : VType) (totalRow : Bool) (suffix : String) (L : ℕ)
    (hL : L = (calculate_covariate_name_column t covs ctypes totalRow suffix).length)
    (hvoi : (splitCodesLabels t voi).2 ≠ [])
    (hml : ∀ cv ∈ covs.zip ctypes, (splitCodesLabels t cv.1).2 ≠ [])
    (hvt : vt = VType.C → 2 ≤ (splitCodesLabels t voi).2.length)
    (hvnd : vt = VType.C → ((splitCodesLabels t voi).2.drop 1).Nodup)
    (htr : totalRow = true → vt = VType.C → 0 < t.sampleSize)
    (hpear : vt = VType.N → ∀ cv ∈ covs.zip ctypes, cv.2 = VType.N →
      (t.data voi).length = (t.data cv.1).length ∧ 2 ≤ (t.data voi).length)
    (hden : vt = VType.C → ∀ cv ∈ covs.zip ctypes, cv.2 = VType.C →
      ∀ k ∈ (splitCodesLabels t cv.1).1, 0 < countMatches (t.data cv.1) k) :
    ∃ nms g,
      calculate_variable_of_interest_columns t covs ctypes voi vt L totalRow
        = some (nms, g) ∧
      g.length = (blockColNames vt (splitCodesLabels t voi).2).length ∧
      (∀ col ∈ g, col.length = L) ∧
      (∀ k, k < (covs.zip ctypes).length → ∀ c,
        cellD g c (blankRowIdx t voi vt (splitCodesLabels t voi).1 totalRow
          (covs.zip ctypes) k) = "") ∧
      (∀ missing tc, calculate_total_column t covs ctypes missing totalRow = some tc →
        tc.length = L) := by
  have hsum : L = headerRows totalRow
      + ((covs.zip ctypes).map
          (covRowCount t voi vt (splitCodesLabels t voi).1)).sum := by
    rw [hL, nameCol_length t covs ctypes totalRow suffix]
    congr 1
    apply congrArg List.sum
    apply List.map_congr_left
    intro cv _
    exact nameRows_covRowCount t suffix voi vt (splitCodesLabels t voi).1 cv
  have hrows : ∀ cv ∈ covs.zip ctypes,
      ∀ row ∈ covStepRows t voi vt (splitCodesLabels t voi).1 cv,
        row.length ≤ (blockColNames vt (splitCodesLabels t voi).2).length ∧
          ∀ os ∈ row, os.isSome := by
    intro cv hcv
    exact covStepRows_ok t voi vt cv hvnd
      (fun hct hvt2 => hpear hvt2 cv hcv hct)
      (fun hct hvtc => hden hvtc cv hcv hct)
  have hg0 := initGrid_ok (blockColNames vt (splitCodesLabels t voi).2) L
  have hb0 := initGrid_blank (blockColNames vt (splitCodesLabels t voi).2) L
  -- the prelude: from (g0, 1) to (g1, headerRows totalRow)
  have hpre : ∃ g1,
      (if totalRow then writeCells2D
          ((blockColNames vt (splitCodesLabels t voi).2).map
            (fun _ => List.replicate L ""))
          1 [totalRowCells t voi vt (splitCodesLabels t voi).1]
        else some (((blockColNames vt (splitCodesLabels t voi).2).map
          (fun _ => List.replicate L "")), 1))
        = some (g1, headerRows totalRow) ∧
      GridOK g1 (blockColNames vt (splitCodesLabels t voi).2).length L ∧
      BlankFrom g1 (headerRows totalRow) := by
    cases totalRow with
    | false =>
      refine ⟨_, rfl, hg0, ?_⟩
      intro c i hi
      exact hb0 c i (by omega)
    | true =>
      have hL2 : 2 ≤ L := by
        rw [hsum]
        unfold headerRows
        simp
      obtain ⟨g1, hw, hg1, hpres, _⟩ :=
        writeCells2D_some [totalRowCells t voi vt (splitCodesLabels t voi).1]
          ((blockColNames vt (splitCodesLabels t voi).2).map
            (fun _ => List.replicate L ""))
          1 hg0 (by simpa using hL2)
          (by
            intro row hrow
            simp only [List.mem_singleton] at hrow
            subst hrow
            exact totalRowCells_ok t voi vt hvnd (htr rfl))
      refine ⟨g1, ?_, hg1, ?_⟩
      · rw [hw]
        rfl
      · intro c i hi
        unfold headerRows at hi
        simp only [if_pos] at hi
        rw [hpres c i (by simp; omega)]
        exact hb0 c i (by omega)
  obtain ⟨g1, hpre1, hg1, hb1⟩ := hpre
  obtain ⟨g2, hloop, hg2, _, _, hblanks⟩ :=
    covLoop_some t voi vt (splitCodesLabels t voi).1 (covs.zip ctypes) g1
      (headerRows totalRow) hg1 hb1 (by omega) hrows
  obtain ⟨nms, g', hrel, hg', hcell'⟩ :=
    relabelBlock_some vt (splitCodesLabels t voi).2 g2 hg2 rfl hvnd hvt
  refine ⟨nms, g', ?_, hg'.1, hg'.2, ?_, ?_⟩
  · unfold calculate_variable_of_interest_columns
    cases totalRow with
    | false =>
      simp only [Bool.false_eq_true, if_false, Option.some.injEq] at hpre1
      simp only [Bool.false_eq_true, if_false, Option.bind_eq_bind, Option.some_bind]
      have hg1eq : g1 = (blockColNames vt (splitCodesLabels t voi).2).map
          (fun _ => List.replicate L "") := by
        have := congrArg Prod.fst hpre1
        exact this.symm
      have hr1eq : headerRows false = 1 := rfl
      rw [← hg1eq] at *
      rw [show (1 : ℕ) = headerRows false from rfl]
      rw [hloop]
      simp only [Option.some_bind]
      exact hrel
    | true =>
      simp only [if_true] at hpre1
      simp only [if_true, Option.bind_eq_bind]
      rw [hpre1]
      simp only [Option.some_bind]
      rw [hloop]
      simp only [Option.some_bind]
      exact hrel
  · intro k hk c
    have hb := hblanks k hk c
    have hge1 : 1 ≤ blankRowIdx t voi vt (splitCodesLabels t voi).1 totalRow
        (covs.zip ctypes) k := by
      unfold blankRowIdx headerRows
      omega
    rw [hcell' c _ hge1]
    exact hb
  · intro missing tc htc
    rw [hL]
    exact totalCol_length t covs ctypes missing totalRow suffix tc htc


theorem claim1_witness :
    ∃ nms g,
      calculate_variable_of_interest_columns smokeTab ["sex"] [VType.C] "smoke" VType.C 5 true
        = some (nms, g) ∧
      g.length = (blockColNames VType.C (splitCodesLabels smokeTab "smoke").2).length ∧
      (∀ col ∈ g, col.length = 5) ∧
      (∀ k, k < (["sex"].zip [VType.C]).length → ∀ c,
        cellD g c (blankRowIdx smokeTab "smoke" VType.C
          (splitCodesLabels smokeTab "smoke").1 true (["sex"].zip [VType.C]) k) = "") ∧
      (∀ missing tc,
        calculate_total_column smokeTab ["sex"] [VType.C] missing true = some tc →
        tc.length = 5) :=
  claim1_block_shape smokeTab ["sex"] [VType.C] "smoke" VType.C true "n(%)" 5
    (by with_unfolding_all decide)
    (by with_unfolding_all decide)
    (by with_unfolding_all decide)
    (by with_unfolding_all decide)
    (by with_unfolding_all decide)
    (by decide)
    (fun h => nomatch h)
    (by with_unfolding_all decide)

/- ------------------------------------------------------------------ -/
/- Claim C2: width bookkeeping and the grouping descriptor.            -/
/- ------------------------------------------------------------------ -/

lemma setCell_length {g g' : Grid} {r c : ℕ} {s : String}
    (h : setCell g r c s = some g') : g'.length = g.length := by
  unfold setCell at h
  cases hc : g[c]? with
  | none => rw [hc] at h; cases h
  | some col =>
    rw [hc] at h
    dsimp only at h
    split at h
    · injection h with h
      rw [← h]
      simp
    · cases h

lemma writeRowM_length : ∀ (cells : List (Option String)) (g : Grid) (r c0 : ℕ)
    (g' : Grid), writeRowM g r c0 cells = some g' → g'.length = g.length
  | [], g, r, c0, g', h => by
    simp only [writeRowM, Option.some.injEq] at h
    rw [← h]
  | os :: rest, g, r, c0, g', h => by
    rw [writeRowM] at h
    simp only [Option.bind_eq_bind, Option.bind_eq_some] at h
    obtain ⟨s, _, g1, hset, hrec⟩ := h
    rw [writeRowM_length rest g1 r (c0 + 1) g' hrec, setCell_length hset]

lemma writeCells2D_length : ∀ (rows : List (List (Option String))) (g : Grid) (r : ℕ)
    (out : Grid × ℕ), writeCells2D g r rows = some out → out.1.length = g.length
  | [], g, r, out, h => by
    simp only [writeCells2D, Option.some.injEq] at h
    rw [← h]
  | row :: rows, g, r, out, h => by
    rw [writeCells2D] at h
    simp only [Option.bind_eq_bind, Option.bind_eq_some] at h
    obtain ⟨g1, hw, hrec⟩ := h
    rw [writeCells2D_length rows g1 (r + 1) out hrec, writeRowM_length row g r 0 g1 hw]

lemma covFold_length (t : Tab) (voi : String) (vt : VType) (voiCodes : List VKey) :
    ∀ (cvs : List (String × VType)) (gr : Grid × ℕ) (out : Grid × ℕ),
      cvs.foldlM (covStep t voi vt voiCodes) gr = some out → out.1.length = gr.1.length
  | [], gr, out, h => by
    simp only [List.foldlM_nil, Option.pure_def, Option.some.injEq] at h
    rw [← h]
  | cv :: rest, gr, out, h => by
    rw [List.foldlM_cons] at h
    simp only [Option.bind_eq_bind, Option.bind_eq_some] at h
    obtain ⟨gr1, hstep, hrec⟩ := h
    rw [covFold_length t voi vt voiCodes rest gr1 out hrec]
    exact writeCells2D_length _ _ _ _ hstep

lemma relabelBlock_length {vt : VType} {labels : List String} {g : Grid}
    {nms : List String} {g' : Grid} (h : relabelBlock vt labels g = some (nms, g')) :
    g'.length = min (blockColNames vt labels).length g.length := by
  unfold relabelBlock at h
  cases vt <;>
  · simp only [] at h
    split at h
    · injection h with h
      injection h with h1 h2
      rw [← h2]
      simp [List.length_zip]
    · cases h

lemma calcVoi_width (t : Tab) (covs : List String) (ctypes : List VType)
    (voi : String) (vt : VType) (L : ℕ) (totalRow : Bool)
    (nms : List String) (g : Grid)
    (h : calculate_variable_of_interest_columns t covs ctypes voi vt L totalRow
      = some (nms, g)) :
    g.length = (blockColNames vt (splitCodesLabels t voi).2).length := by
  unfold calculate_variable_of_interest_columns at h
  have hg0len : ((blockColNames vt (splitCodesLabels t voi).2).map
      (fun _ => List.replicate L "")).length
      = (blockColNames vt (splitCodesLabels t voi).2).length := by simp
  cases totalRow with
  | false =>
    simp only [Bool.false_eq_true, if_false, Option.bind_eq_bind, Option.some_bind,
      Option.bind_eq_some] at h
    obtain ⟨⟨g2, r2⟩, hfold, hrel⟩ := h
    have h2 := covFold_length t voi vt (splitCodesLabels t voi).1 _ _ _ hfold
    rw [relabelBlock_length hrel]
    simp only at h2
    rw [h2, hg0len]
    simp
  | true =>
    simp only [if_true, Option.bind_eq_bind, Option.bind_eq_some] at h
    obtain ⟨⟨g1, r1⟩, hw, h⟩ := h
    obtain ⟨⟨g2, r2⟩, hfold, hrel⟩ := h
    have h1 := writeCells2D_length _ _ _ _ hw
    have h2 := covFold_length t voi vt (splitCodesLabels t voi).1 _ _ _ hfold
    rw [relabelBlock_length hrel]
    simp only at h1 h2
    rw [h2, h1, hg0len]
    simp

lemma voiLoop_spec (t : Tab) (covs : List String) (ctypes : List VType) (L : ℕ)
    (totalRow : Bool) :
    ∀ (rest : List (String × VType)) (tbl : List String × Grid) (grp : List ℕ)
      (tbl' : List String × Grid) (grp' : List ℕ),
      voiLoop t covs ctypes L totalRow rest tbl grp = some (tbl', grp') →
      grp' = grp ++ rest.map (fun p =>
        (blockColNames p.2 (splitCodesLabels t p.1).2).length) ∧
      tbl'.2.length = tbl.2.length + (rest.map (fun p =>
        (blockColNames p.2 (splitCodesLabels t p.1).2).length)).sum
  | [], tbl, grp, tbl', grp', h => by
    simp only [voiLoop, Option.some.injEq, Prod.mk.injEq] at h
    obtain ⟨h1, h2⟩ := h
    rw [← h1, ← h2]
    simp
  | (v, vty) :: rest, tbl, grp, tbl', grp', h => by
    simp only [voiLoop, Option.bind_eq_bind, Option.bind_eq_some] at h
    obtain ⟨⟨bn, bg⟩, hb, hrec⟩ := h
    have hw := calcVoi_width t covs ctypes v vty L totalRow bn bg hb
    obtain ⟨h1, h2⟩ := voiLoop_spec t covs ctypes L totalRow rest _ _ tbl' grp' hrec
    constructor
    · rw [h1, hw]
      simp
    · rw [h2]
      simp only [List.length_append, hw, List.map_cons, List.sum_cons]
      omega

/-- Claim C2: the returned column-grouping descriptor is 1 for the name
column, then 1 if the total column is included, then one entry per variable
of interest equal to that block's physical column count, and its sum equals
the assembled table's total column count. -/
theorem claim2_grouping (t : Tab) (covs : List String) (ctypes : List VType)
    (vois : List String) (voitypes : List VType) (missing totalRow totalCol : Bool)
    (suffix : String) (tbl : List String × Grid) (grp : List ℕ)
    (h : generate_bivariate_table t covs ctypes vois voitypes missing totalRow totalCol
      suffix = some (tbl, grp)) :
    grp = 1 :: ((if totalCol then [1] else []) ++ (vois.zip voitypes).map
      (fun p => (blockColNames p.2 (splitCodesLabels t p.1).2).length)) ∧
    grp.sum = tbl.2.length := by
  unfold generate_bivariate_table at h
  cases totalCol with
  | false =>
    simp only [Bool.false_eq_true, if_false, Option.bind_eq_bind, Option.some_bind] at h
    obtain ⟨h1, h2⟩ :=
      voiLoop_spec t covs ctypes _ totalRow (vois.zip voitypes) _ _ tbl grp h
    constructor
    · rw [h1]
      simp
    · rw [h1, h2]
      simp [List.sum_append]
  | true =>
    simp only [if_true, Option.bind_eq_bind, Option.pure_def, Option.bind_eq_some] at h
    obtain ⟨tc, _, h⟩ := h
    obtain ⟨a, ha, h⟩ := h
    injection ha with ha
    subst ha
    obtain ⟨h1, h2⟩ :=
      voiLoop_spec t covs ctypes _ totalRow (vois.zip voitypes) _ _ tbl grp h
    constructor
    · rw [h1]
      simp
    · rw [h1, h2]
      simp [List.sum_append]
      omega


theorem claim2_witness :
    ([1, 1, 2] : List ℕ) = 1 :: ((if true then [1] else []) ++
      (["smoke"].zip [VType.C]).map
        (fun p => (blockColNames p.2 (splitCodesLabels smokeTab p.1).2).length)) ∧
    ([1, 1, 2] : List ℕ).sum =
      ((["", "", "smoke", ""],
        ([["Characteristics", "sex ", "1", "2"],
          ["Total", "", "2 (50.00%)", "2 (50.00%)"],
          ["1", "", "1 (50.00%)", "2 (100.00%)"],
          ["2", "", "1 (50.00%)", "0 (0.00%)"]] : Grid)) : List String × Grid).2.length :=
  claim2_grouping smokeTab ["sex"] [VType.C] ["smoke"] [VType.C] false false true ""
    (["", "", "smoke", ""],
      ([["Characteristics", "sex ", "1", "2"],
        ["Total", "", "2 (50.00%)", "2 (50.00%)"],
        ["1", "", "1 (50.00%)", "2 (100.00%)"],
        ["2", "", "1 (50.00%)", "0 (0.00%)"]] : Grid))
    [1, 1, 2] (by with_unfolding_all decide)

/- ------------------------------------------------------------------ -/
/- Claim C3.                                                           -/
/- ------------------------------------------------------------------ -/

lemma getD_map_lt {α β : Type} (f : α → β) (l : List α) (i : ℕ) (hi : i < l.length)
    (d : α) (d' : β) : (l.map f).getD i d' = f (l.getD i d) := by
  rw [List.getD_eq_getElem?_getD, List.getElem?_map, List.getElem?_eq_getElem hi]
  simp [List.getD_eq_getElem?_getD, List.getElem?_eq_getElem hi]

lemma getD_mem {α : Type} (l : List α) (i : ℕ) (hi : i < l.length) (d : α) :
    l.getD i d ∈ l := by
  rw [List.getD_eq_getElem?_getD, List.getElem?_eq_getElem hi]
  simpa using List.getElem_mem hi

/-- Claim C3: crossing a categorical covariate with a categorical variable of
interest - its category labels pairwise distinct, otherwise pandas collapses
the same-named columns and the crossed write raises - produces a block with
one column per variable-of-interest category (and as many rows as the name
column, whose length is 2 plus the number of covariate categories: header
plus covariate label row plus one row per category); the cell in
covariate-category row i and variable-of-interest column j reads n followed
by the percentage of n over the count of rows in covariate category i - the
denominator is the covariate-category count, not the overall sample size. -/
theorem claim3_cc_cells (t : Tab) (cov voi : String) (suffix : String)
    (hvt : 2 ≤ (splitCodesLabels t voi).2.length)
    (hnd : ((splitCodesLabels t voi).2.drop 1).Nodup)
    (hden : ∀ k ∈ (splitCodesLabels t cov).1, 0 < countMatches (t.data cov) k) :
    (calculate_covariate_name_column t [cov] [VType.C] false suffix).length
      = 2 + (splitCodesLabels t cov).1.length ∧
    ∃ nms g,
      calculate_variable_of_interest_columns t [cov] [VType.C] voi VType.C
        (calculate_covariate_name_column t [cov] [VType.C] false suffix).length false
        = some (nms, g) ∧
      g.length = (splitCodesLabels t voi).1.length ∧
      (∀ col ∈ g, col.length
        = (calculate_covariate_name_column t [cov] [VType.C] false suffix).length) ∧
      (∀ i, i < (splitCodesLabels t cov).1.length →
        ∀ j, j < (splitCodesLabels t voi).1.length →
          cellD g j (2 + i)
            = toString (((t.data cov).zip (t.data voi)).countP
                (fun p => vmatch p.1 ((splitCodesLabels t cov).1.getD i (VKey.num 0))
                  && vmatch p.2 ((splitCodesLabels t voi).1.getD j (VKey.num 0))))
              ++ " (" ++ pctStr t.decimalPlaces
                (((((t.data cov).zip (t.data voi)).countP
                  (fun p => vmatch p.1 ((splitCodesLabels t cov).1.getD i (VKey.num 0))
                    && vmatch p.2 ((splitCodesLabels t voi).1.getD j (VKey.num 0)))) : ℚ)
                / ((countMatches (t.data cov)
                    ((splitCodesLabels t cov).1.getD i (VKey.num 0))) : ℚ)) ++ ")") := by
  have hL : (calculate_covariate_name_column t [cov] [VType.C] false suffix).length
      = 2 + (splitCodesLabels t cov).1.length := by
    rw [nameCol_length t [cov] [VType.C] false suffix]
    simp only [List.zip_cons_cons, List.zip_nil_right, List.map_cons, List.map_nil,
      List.sum_cons, List.sum_nil, nameRowsFor, headerRows]
    simp [codes_labels_length]
    omega
  refine ⟨hL, ?_⟩
  have hrows := covStepRows_ok t voi VType.C (cov, VType.C) (fun _ => hnd)
    (fun h => nomatch h) (fun _ _ => hden)
  have hrowslen : (covStepRows t voi VType.C (splitCodesLabels t voi).1 (cov, VType.C)).length
      = (splitCodesLabels t cov).1.length := by
    rw [covStepRows_length]
    rfl
  have hg0 := initGrid_ok (blockColNames VType.C (splitCodesLabels t voi).2)
    ((calculate_covariate_name_column t [cov] [VType.C] false suffix).length)
  obtain ⟨g2, hw, hg2, _, hcontent2⟩ :=
    writeCells2D_some
      (covStepRows t voi VType.C (splitCodesLabels t voi).1 (cov, VType.C))
      ((blockColNames VType.C (splitCodesLabels t voi).2).map
        (fun _ => List.replicate
          (calculate_covariate_name_column t [cov] [VType.C] false suffix).length ""))
      2 hg0 (by rw [hL, hrowslen]) hrows
  obtain ⟨nms, g', hrel, hg', hcell'⟩ :=
    relabelBlock_some VType.C (splitCodesLabels t voi).2 g2 hg2 rfl (fun _ => hnd)
      (fun _ => hvt)
  refine ⟨nms, g', ?_, ?_, hg'.2, ?_⟩
  · unfold calculate_variable_of_interest_columns
    simp only [Bool.false_eq_true, if_false, Option.bind_eq_bind, Option.some_bind]
    simp only [List.zip_cons_cons, List.zip_nil_right, List.zip_nil_left]
    rw [List.foldlM_cons]
    have hstep : covStep t voi VType.C (splitCodesLabels t voi).1
        (((blockColNames VType.C (splitCodesLabels t voi).2).map
          (fun _ => List.replicate
            (calculate_covariate_name_column t [cov] [VType.C] false suffix).length "")), 1)
        (cov, VType.C)
        = some (g2, 2 + (covStepRows t voi VType.C (splitCodesLabels t voi).1
            (cov, VType.C)).length) := by
      unfold covStep
      exact hw
    rw [hstep]
    simp only [Option.bind_eq_bind, Option.some_bind, List.foldlM_nil, Option.pure_def,
      Option.some_bind]
    exact hrel
  · rw [hg'.1]
    exact blockColNames_length_C t voi hnd
  · intro i hi j hj
    rw [hcell' j (2 + i) (by omega)]
    have hi' : i < (covStepRows t voi VType.C (splitCodesLabels t voi).1
        (cov, VType.C)).length := by omega
    have hrowsi : (covStepRows t voi VType.C (splitCodesLabels t voi).1
        (cov, VType.C)).getD i []
        = (splitCodesLabels t voi).1.map (fun code =>
            countPercentCell t.decimalPlaces
              (((t.data cov).zip (t.data voi)).countP
                (fun p => vmatch p.1 ((splitCodesLabels t cov).1.getD i (VKey.num 0))
                  && vmatch p.2 code))
              (countMatches (t.data cov)
                ((splitCodesLabels t cov).1.getD i (VKey.num 0)))) := by
      have : (covStepRows t voi VType.C (splitCodesLabels t voi).1 (cov, VType.C))
          = (splitCodesLabels t cov).1.map (fun cc =>
              (splitCodesLabels t voi).1.map (fun code =>
                countPercentCell t.decimalPlaces
                  (((t.data cov).zip (t.data voi)).countP
                    (fun p => vmatch p.1 cc && vmatch p.2 code))
                  (countMatches (t.data cov) cc))) := rfl
      rw [this, getD_map_lt _ _ i (by omega) (VKey.num 0)]
    have hjlen : j < ((covStepRows t voi VType.C (splitCodesLabels t voi).1
        (cov, VType.C)).getD i []).length := by
      rw [hrowsi]
      simpa using hj
    have hcell := hcontent2 i hi' j hjlen
    rw [hrowsi] at hcell
    rw [getD_map_lt _ _ j hj (VKey.num 0)] at hcell
    rw [countPercentCell_pos _ _ _
      (hden _ (getD_mem _ i hi (VKey.num 0)))] at hcell
    simpa using hcell

theorem claim3_witness :
    ((calculate_covariate_name_column smokeTab ["sex"] [VType.C] false "").length
      = 2 + (splitCodesLabels smokeTab "sex").1.length ∧
    ∃ nms g,
      calculate_variable_of_interest_columns smokeTab ["sex"] [VType.C] "smoke" VType.C
        (calculate_covariate_name_column smokeTab ["sex"] [VType.C] false "").length false
        = some (nms, g) ∧
      g.length = (splitCodesLabels smokeTab "smoke").1.length ∧
      (∀ col ∈ g, col.length
        = (calculate_covariate_name_column smokeTab ["sex"] [VType.C] false "").length) ∧
      (∀ i, i < (splitCodesLabels smokeTab "sex").1.length →
        ∀ j, j < (splitCodesLabels smokeTab "smoke").1.length →
          cellD g j (2 + i)
            = toString (((smokeTab.data "sex").zip (smokeTab.data "smoke")).countP
                (fun p => vmatch p.1 ((splitCodesLabels smokeTab "sex").1.getD i (VKey.num 0))
                  && vmatch p.2 ((splitCodesLabels smokeTab "smoke").1.getD j (VKey.num 0))))
              ++ " (" ++ pctStr smokeTab.decimalPlaces
                (((((smokeTab.data "sex").zip (smokeTab.data "smoke")).countP
                  (fun p => vmatch p.1 ((splitCodesLabels smokeTab "sex").1.getD i (VKey.num 0))
                    && vmatch p.2 ((splitCodesLabels smokeTab "smoke").1.getD j (VKey.num 0)))) : ℚ)
                / ((countMatches (smokeTab.data "sex")
                    ((splitCodesLabels smokeTab "sex").1.getD i (VKey.num 0))) : ℚ)) ++ ")")) :=
  claim3_cc_cells smokeTab "sex" "smoke" ""
    (by with_unfolding_all decide)
    (by with_unfolding_all decide)
    (by with_unfolding_all decide)

end Tabulator
